import Mathlib

/-!
A verification development for the `subset-cover` repository: encodings of the
covering-design feasibility problem for several constraint-solver backends.

The Python sources are shallowly embedded:

* `subset_cover.py` gives the `SolveStatus` and `SubsetCoverParameters` types.
* `common_model.py` gives the combinatorial universe generation
  (`combinations` mirrors `itertools.combinations`, `make_hit_sets` mirrors
  the function of the same name).
* Each encoding module (`subset_cover_ilp.py`, `subset_cover_cp.py`,
  `subset_cover_z3.py`, `subset_cover_z3_cardinality.py`,
  `subset_cover_z3_brute_force.py`, `min_subset_cover_ilp.py`) is embedded as
  a satisfaction predicate over 0/1 assignments of exactly the decision
  variables the module creates, one conjunct per family of constraints the
  module posts, plus the module's status-classification function.
* The backends themselves (SCIP, CP-SAT, Z3) are out of scope of the sources
  and are modelled as sound and complete decision procedures: `solveExact`
  returns the backend success status exactly when the posted model is
  satisfiable, and the proved-infeasible status otherwise, then classifies it
  with the module's own classification branches.  Wall-clock timing and
  timeout behaviour are represented only through the configured budget
  constants read off from the sources.
* Where a module's `solve` can raise before any solver call, the embedding
  models the exception explicitly as an `Except PyError` value: the
  cardinality module's unconditional `NameError` (an unresolved identifier),
  and the `Z3Exception` that z3's Python API raises from `Or`/`And`/`AtMost`
  when the code passes them an empty argument list (zero slots in the
  Z3-integer encoding's backward implication; a hit set with no containing
  candidate, or an empty candidate list, in the brute-force encoding).  The
  modules `solve` entry points return `.ok` of the classified exact-backend
  status exactly on the parameters where the Python model construction
  completes.
-/

namespace SubsetCoverSpec

/-- From `subset_cover.py` (`SolveStatus` enum): a generalization over the
solve statuses of each solver. `UNKNOWN` includes timeout or the solver
giving up. -/
inductive SolveStatus where
  | UNKNOWN
  | SOLVED
  | INFEASIBLE
deriving DecidableEq, Repr

/-- From `subset_cover.py` (`SubsetCoverParameters` dataclass), with the same
field order.  Python stores arbitrary ints; the embedding uses `ℕ`
(the minimization encodings ignore `num_choice_sets`, which in Python may
also be `None`). -/
structure SubsetCoverParameters where
  num_elements : ℕ
  hit_set_size : ℕ
  choice_set_size : ℕ
  num_choice_sets : ℕ
deriving DecidableEq, Repr

/-- The status codes of `ortools.linear_solver.pywraplp.Solver` used by
`subset_cover_ilp.py` and `min_subset_cover_ilp.py`. -/
inductive MPSolverStatus where
  | OPTIMAL
  | FEASIBLE
  | INFEASIBLE
  | UNBOUNDED
  | ABNORMAL
  | MODEL_INVALID
  | NOT_SOLVED
deriving DecidableEq, Repr

/-- The status codes of `ortools.sat.python.cp_model` used by
`subset_cover_cp.py`. -/
inductive CpSolverStatus where
  | UNKNOWN
  | MODEL_INVALID
  | FEASIBLE
  | INFEASIBLE
  | OPTIMAL
deriving DecidableEq, Repr

/-- The three results of z3's `Solver.check()` used by the z3-based
encodings. -/
inductive Z3CheckResult where
  | sat
  | unsat
  | unknown
deriving DecidableEq, Repr

namespace CommonModel

/-- `itertools.combinations` over a list, as used by `common_model.py` and the
per-module copies: all length-`k` selections of elements in list order
(each combination preserves the order of the input list, and combinations are
emitted in lexicographic order of chosen positions). -/
def combinations : ℕ → List ℕ → List (List ℕ)
  | 0, _ => [[]]
  | _ + 1, [] => []
  | k + 1, x :: xs =>
      ((combinations k xs).map (fun c => x :: c)) ++ combinations (k + 1) xs

/-- Python's `sorted` on a list of ints (embedded as insertion sort with `≤`,
which computes the same sorted permutation). -/
def pySorted (l : List ℕ) : List ℕ := List.insertionSort (· ≤ ·) l

/-- From `common_model.py` lines 75-78 (duplicated verbatim in
`subset_cover_ilp.py` and `min_subset_cover_ilp.py`):
`[tuple(sorted(elts)) for elts in combinations(elements, hit_set_size)]`. -/
def make_hit_sets (elements : List ℕ) (hit_set_size : ℕ) : List (List ℕ) :=
  (combinations hit_set_size elements).map pySorted

theorem mem_combinations {k : ℕ} {l c : List ℕ} :
    c ∈ combinations k l ↔ c.Sublist l ∧ c.length = k := by
  induction l generalizing k c with
  | nil =>
    cases k with
    | zero =>
      simp only [combinations, List.mem_singleton]
      constructor
      · rintro rfl; exact ⟨List.Sublist.refl _, rfl⟩
      · rintro ⟨hs, hl⟩
        exact List.eq_nil_of_length_eq_zero hl
    | succ k =>
      simp only [combinations, List.not_mem_nil, false_iff, not_and]
      intro hs
      have := hs.length_le
      simp only [List.length_nil, Nat.le_zero] at this
      omega
  | cons x xs ih =>
    cases k with
    | zero =>
      simp only [combinations, List.mem_singleton]
      constructor
      · rintro rfl; exact ⟨List.nil_sublist _, rfl⟩
      · rintro ⟨_, hl⟩
        exact List.eq_nil_of_length_eq_zero hl
    | succ k =>
      simp only [combinations, List.mem_append, List.mem_map]
      constructor
      · rintro (⟨a, ha, rfl⟩ | hc)
        · obtain ⟨has, hal⟩ := ih.mp ha
          exact ⟨has.cons₂ x, by simp [hal]⟩
        · obtain ⟨hcs, hcl⟩ := ih.mp hc
          exact ⟨hcs.cons x, hcl⟩
      · rintro ⟨hs, hl⟩
        cases c with
        | nil => simp at hl
        | cons y ys =>
          cases hs with
          | cons _ h' =>
            exact Or.inr (ih.mpr ⟨h', hl⟩)
          | cons₂ _ h' =>
            exact Or.inl ⟨ys, ih.mpr ⟨h', by simpa using hl⟩, rfl⟩

theorem length_combinations (k : ℕ) (l : List ℕ) :
    (combinations k l).length = Nat.choose l.length k := by
  induction l generalizing k with
  | nil =>
    cases k with
    | zero => simp [combinations]
    | succ k => simp [combinations]
  | cons x xs ih =>
    cases k with
    | zero => simp [combinations]
    | succ k =>
      simp only [combinations, List.length_append, List.length_map, ih,
        List.length_cons, Nat.choose_succ_succ]

theorem sublist_of_mem_combinations {k : ℕ} {l c : List ℕ}
    (h : c ∈ combinations k l) : c.Sublist l :=
  (mem_combinations.mp h).1

theorem length_of_mem_combinations {k : ℕ} {l c : List ℕ}
    (h : c ∈ combinations k l) : c.length = k :=
  (mem_combinations.mp h).2

theorem sorted_of_mem_combinations {k : ℕ} {l c : List ℕ}
    (hl : l.Sorted (· < ·)) (h : c ∈ combinations k l) : c.Sorted (· < ·) :=
  hl.sublist (sublist_of_mem_combinations h)

theorem nodup_of_mem_combinations {k : ℕ} {l c : List ℕ}
    (hl : l.Nodup) (h : c ∈ combinations k l) : c.Nodup :=
  hl.sublist (sublist_of_mem_combinations h)

/-- Strict order comparison on lists, used to state that `itertools`
emits combinations of a strictly sorted input in lexicographic order. -/
theorem pairwise_lex_combinations :
    ∀ (k : ℕ) (l : List ℕ), l.Sorted (· < ·) →
      (combinations k l).Pairwise (List.Lex (· < ·)) := by
  intro k l
  induction l generalizing k with
  | nil =>
    intro _
    cases k with
    | zero => simp [combinations]
    | succ k => simp [combinations]
  | cons x xs ih =>
    intro hs
    have hxs : xs.Sorted (· < ·) := hs.of_cons
    have hlt : ∀ y ∈ xs, x < y := fun y hy => List.rel_of_sorted_cons hs y hy
    cases k with
    | zero => simp [combinations]
    | succ k =>
      simp only [combinations]
      rw [List.pairwise_append]
      refine ⟨?_, ih (k + 1) hxs, ?_⟩
      · rw [List.pairwise_map]
        exact (ih k hxs).imp (fun h => List.Lex.cons h)
      · rintro a ha b hb
        obtain ⟨a', ha', rfl⟩ := List.mem_map.mp ha
        have hbl := length_of_mem_combinations hb
        cases b with
        | nil => simp at hbl
        | cons y ys =>
          have hy : y ∈ xs :=
            (sublist_of_mem_combinations hb).subset (List.mem_cons_self y ys)
          exact List.Lex.rel (hlt y hy)

theorem lex_lt_irrefl : ∀ l : List ℕ, ¬ List.Lex (· < ·) l l := by
  intro l
  induction l with
  | nil => intro h; cases h
  | cons x xs ih =>
    intro h
    cases h with
    | cons h' => exact ih h'
    | rel h' => exact lt_irrefl x h'

theorem nodup_combinations {k : ℕ} {l : List ℕ} (hl : l.Sorted (· < ·)) :
    (combinations k l).Nodup := by
  refine (pairwise_lex_combinations k l hl).imp ?_
  intro a b hab
  intro h
  subst h
  exact lex_lt_irrefl a hab

/-- A strictly sorted list is a sublist of any strictly sorted list that
contains all of its elements. -/
theorem sublist_of_sorted_subset :
    ∀ (l₂ l₁ : List ℕ), l₁.Sorted (· < ·) → l₂.Sorted (· < ·) →
      (∀ x ∈ l₁, x ∈ l₂) → l₁.Sublist l₂ := by
  intro l₂
  induction l₂ with
  | nil =>
    intro l₁ _ _ hsub
    cases l₁ with
    | nil => exact List.Sublist.refl _
    | cons a as => exact absurd (hsub a (List.mem_cons_self a as)) (List.not_mem_nil a)
  | cons b bs ih =>
    intro l₁ h₁ h₂ hsub
    cases l₁ with
    | nil => exact List.nil_sublist _
    | cons a as =>
      by_cases hab : a = b
      · subst hab
        refine List.Sublist.cons₂ a (ih as h₁.of_cons h₂.of_cons ?_)
        intro x hx
        have hx2 : x ∈ a :: bs := by
          have := hsub x (List.mem_cons_of_mem a hx)
          rcases List.mem_cons.mp this with h | h
          · exact h ▸ List.mem_cons_self _ _
          · exact List.mem_cons_of_mem _ h
        rcases List.mem_cons.mp hx2 with h | h
        · exact absurd (h ▸ List.rel_of_sorted_cons h₁ x hx) (lt_irrefl x)
        · exact h
      · have hane : a ∈ bs := by
          rcases List.mem_cons.mp (hsub a (List.mem_cons_self a as)) with h | h
          · exact absurd h hab
          · exact h
        refine List.Sublist.cons b (ih (a :: as) h₁ h₂.of_cons ?_)
        intro x hx
        have hbx : b < x := by
          rcases List.mem_cons.mp hx with h | h
          · exact h ▸ List.rel_of_sorted_cons h₂ a hane
          · exact lt_trans (List.rel_of_sorted_cons h₂ a hane)
              (List.rel_of_sorted_cons h₁ x h)
        rcases List.mem_cons.mp (hsub x hx) with h | h
        · exact absurd (h ▸ hbx) (lt_irrefl x)
        · exact h

theorem sorted_lt_range (n : ℕ) : (List.range n).Sorted (· < ·) := by
  rw [List.Sorted, List.pairwise_iff_get]
  intro i j hij
  simpa using hij

theorem combinations_range_sorted {n t : ℕ} {c : List ℕ}
    (h : c ∈ combinations t (List.range n)) : c.Sorted (· < ·) :=
  sorted_of_mem_combinations (sorted_lt_range n) h

theorem mem_combinations_range {n t : ℕ} {c : List ℕ} :
    c ∈ combinations t (List.range n) ↔
      c.Sorted (· < ·) ∧ c.length = t ∧ ∀ x ∈ c, x < n := by
  constructor
  · intro h
    refine ⟨combinations_range_sorted h, length_of_mem_combinations h, ?_⟩
    intro x hx
    exact List.mem_range.mp ((sublist_of_mem_combinations h).subset hx)
  · rintro ⟨hs, hl, hb⟩
    refine mem_combinations.mpr ⟨?_, hl⟩
    exact sublist_of_sorted_subset _ _ hs (sorted_lt_range n)
      (fun x hx => List.mem_range.mpr (hb x hx))

/-- On a strictly sorted input (such as `range n`), the `sorted` call inside
`make_hit_sets` is the identity, so the hit sets are exactly the
combinations. -/
theorem make_hit_sets_range (n t : ℕ) :
    make_hit_sets (List.range n) t = combinations t (List.range n) := by
  unfold make_hit_sets
  have h : ∀ c ∈ combinations t (List.range n), pySorted c = c := by
    intro c hc
    exact List.Sorted.insertionSort_eq
      ((combinations_range_sorted hc).imp (fun h => le_of_lt h))
  calc (combinations t (List.range n)).map pySorted
      = (combinations t (List.range n)).map id := List.map_congr_left h
    _ = combinations t (List.range n) := List.map_id _

/-- Every element of the universe occurs in some hit set, when
`1 ≤ t ≤ n`. -/
theorem exists_combination_containing {n t x : ℕ} (h1 : 1 ≤ t) (h2 : t ≤ n)
    (hx : x < n) : ∃ c ∈ combinations t (List.range n), x ∈ c := by
  by_cases hxt : x < t
  · refine ⟨List.range t, ?_, List.mem_range.mpr hxt⟩
    exact mem_combinations.mpr ⟨List.range_sublist.mpr h2, List.length_range t⟩
  · push_neg at hxt
    refine ⟨List.range (t - 1) ++ [x], ?_, by simp⟩
    refine mem_combinations_range.mpr ⟨?_, by simp; omega, ?_⟩
    · rw [List.Sorted, List.pairwise_append]
      refine ⟨(sorted_lt_range (t - 1)).imp ?_, by simp, ?_⟩
      · exact fun h => h
      · intro a ha b hb
        rw [List.mem_singleton] at hb
        subst hb
        have := List.mem_range.mp ha
        omega
    · intro y hy
      rcases List.mem_append.mp hy with h | h
      · have := List.mem_range.mp h; omega
      · rw [List.mem_singleton] at h; omega

/-- Sum of a list of naturals each at most 1: if the sum reaches the length,
every entry is exactly 1. -/
theorem all_one_of_sum_ge_length {l : List ℕ} (hb : ∀ v ∈ l, v ≤ 1)
    (hs : l.length ≤ l.sum) : ∀ v ∈ l, v = 1 := by
  induction l with
  | nil => intro v hv; exact absurd hv (List.not_mem_nil v)
  | cons a as ih =>
    have ha : a ≤ 1 := hb a (List.mem_cons_self a as)
    have hrest : ∀ v ∈ as, v ≤ 1 := fun v hv => hb v (List.mem_cons_of_mem a hv)
    have hsum : as.sum ≤ as.length := by
      calc as.sum ≤ as.length * 1 := List.sum_le_card_nsmul as 1 hrest
        _ = as.length := by ring
    simp only [List.length_cons, List.sum_cons] at hs
    have ha1 : a = 1 := by omega
    have hlen : as.length ≤ as.sum := by omega
    intro v hv
    rcases List.mem_cons.mp hv with h | h
    · exact h ▸ ha1
    · exact ih hrest hlen v h

end CommonModel

namespace AbstractCover

open CommonModel

/-- The set `c` of universe elements contains every element of the hit list
`h` (hit lists store raw `ℕ` element identifiers). -/
def coversList (n : ℕ) (c : Finset (Fin n)) (h : List ℕ) : Prop :=
  ∀ e ∈ h, ∃ x ∈ c, (x : ℕ) = e

instance (n : ℕ) (c : Finset (Fin n)) (h : List ℕ) :
    Decidable (coversList n c h) := by
  unfold coversList; infer_instance

/-- The common mathematical content of the slot-based models: `m` anonymous
choice sets, each of size exactly `k`, jointly containing every hit set. -/
def SlotCover (n k t m : ℕ) : Prop :=
  ∃ f : Fin m → Finset (Fin n),
    (∀ s, (f s).card = k) ∧
    ∀ h ∈ make_hit_sets (List.range n) t, ∃ s, coversList n (f s) h

instance (n k t m : ℕ) : Decidable (SlotCover n k t m) := by
  unfold SlotCover; infer_instance

/-- The common mathematical content of the candidate-based model: a family of
exactly `m` distinct `k`-subsets jointly containing every hit set. -/
def ExactCover (n k t m : ℕ) : Prop :=
  ∃ S : Finset (Finset (Fin n)),
    S.card = m ∧ (∀ c ∈ S, c.card = k) ∧
    ∀ h ∈ make_hit_sets (List.range n) t, ∃ c ∈ S, coversList n c h

instance (n k t m : ℕ) : Decidable (ExactCover n k t m) := by
  unfold ExactCover; infer_instance

/-- The subset of `Fin n` whose values occur in the list `l`. -/
def finsetOfList (n : ℕ) (l : List ℕ) : Finset (Fin n) :=
  Finset.univ.filter (fun x => (x : ℕ) ∈ l)

theorem mem_finsetOfList {n : ℕ} {l : List ℕ} {x : Fin n} :
    x ∈ finsetOfList n l ↔ (x : ℕ) ∈ l := by
  simp [finsetOfList]

theorem card_finsetOfList {n : ℕ} {l : List ℕ} (hd : l.Nodup)
    (hb : ∀ e ∈ l, e < n) : (finsetOfList n l).card = l.length := by
  induction l with
  | nil =>
    simp [finsetOfList]
  | cons a as ih =>
    have ha : a < n := hb a (List.mem_cons_self a as)
    have hrepr : finsetOfList n (a :: as) = insert ⟨a, ha⟩ (finsetOfList n as) := by
      ext x
      simp [mem_finsetOfList, Fin.ext_iff]
    have hnot : (⟨a, ha⟩ : Fin n) ∉ finsetOfList n as := fun hmem =>
      (List.nodup_cons.mp hd).1 (mem_finsetOfList.mp hmem)
    rw [hrepr, Finset.card_insert_of_not_mem hnot, ih hd.of_cons
      (fun e he => hb e (List.mem_cons_of_mem a he))]
    simp

theorem finsetOfList_inj {n : ℕ} {l₁ l₂ : List ℕ}
    (h₁ : l₁.Sorted (· < ·)) (hb₁ : ∀ e ∈ l₁, e < n)
    (h₂ : l₂.Sorted (· < ·)) (hb₂ : ∀ e ∈ l₂, e < n)
    (heq : finsetOfList n l₁ = finsetOfList n l₂) : l₁ = l₂ := by
  have hmem : ∀ e, e ∈ l₁ ↔ e ∈ l₂ := by
    intro e
    constructor
    · intro he
      have : (⟨e, hb₁ e he⟩ : Fin n) ∈ finsetOfList n l₁ := mem_finsetOfList.mpr he
      rw [heq] at this
      exact mem_finsetOfList.mp this
    · intro he
      have : (⟨e, hb₂ e he⟩ : Fin n) ∈ finsetOfList n l₂ := mem_finsetOfList.mpr he
      rw [← heq] at this
      exact mem_finsetOfList.mp this
  exact List.Sublist.antisymm
    (CommonModel.sublist_of_sorted_subset _ _ h₁ h₂ (fun x hx => (hmem x).mp hx))
    (CommonModel.sublist_of_sorted_subset _ _ h₂ h₁ (fun x hx => (hmem x).mpr hx))

/-- The increasing list of raw element values of a subset of `Fin n`. -/
def sortedListOfFinset {n : ℕ} (c : Finset (Fin n)) : List ℕ :=
  List.map Fin.val (c.sort (· ≤ ·))

theorem mem_sortedListOfFinset {n : ℕ} {c : Finset (Fin n)} {e : ℕ} :
    e ∈ sortedListOfFinset c ↔ ∃ x ∈ c, (x : ℕ) = e := by
  simp [sortedListOfFinset, Finset.mem_sort, eq_comm]

theorem length_sortedListOfFinset {n : ℕ} (c : Finset (Fin n)) :
    (sortedListOfFinset c).length = c.card := by
  unfold sortedListOfFinset
  rw [List.length_map, Finset.length_sort]

theorem sorted_sortedListOfFinset {n : ℕ} (c : Finset (Fin n)) :
    (sortedListOfFinset c).Sorted (· < ·) := by
  unfold sortedListOfFinset
  rw [List.Sorted, List.pairwise_map]
  exact c.sort_sorted_lt.imp (fun h => h)

theorem bound_sortedListOfFinset {n : ℕ} (c : Finset (Fin n)) :
    ∀ e ∈ sortedListOfFinset c, e < n := by
  intro e he
  obtain ⟨x, _, rfl⟩ := mem_sortedListOfFinset.mp he
  exact x.isLt

theorem finsetOfList_sortedListOfFinset {n : ℕ} (c : Finset (Fin n)) :
    finsetOfList n (sortedListOfFinset c) = c := by
  ext x
  rw [mem_finsetOfList, mem_sortedListOfFinset]
  constructor
  · rintro ⟨y, hy, hxy⟩
    have : y = x := Fin.ext hxy
    exact this ▸ hy
  · intro hx
    exact ⟨x, hx, rfl⟩

theorem exactCover_to_slotCover {n k t m : ℕ} (h : ExactCover n k t m) :
    SlotCover n k t m := by
  obtain ⟨S, hcard, hsize, hcov⟩ := h
  have hlen : S.toList.length = m := by rw [Finset.length_toList, hcard]
  refine ⟨fun i => S.toList.get ⟨i.val, by omega⟩, ?_, ?_⟩
  · intro s
    exact hsize _ (Finset.mem_toList.mp (List.get_mem _ _ _))
  · intro h hh
    obtain ⟨c, hc, hcovc⟩ := hcov h hh
    obtain ⟨⟨iv, hiv⟩, hi⟩ := List.get_of_mem (Finset.mem_toList.mpr hc)
    refine ⟨⟨iv, by omega⟩, ?_⟩
    show coversList n (S.toList.get ⟨iv, by omega⟩) h
    have heq : S.toList.get ⟨iv, by omega⟩ = c := hi
    rw [heq]
    exact hcovc

theorem slotCover_to_exactCover {n k t m : ℕ} (hm : m ≤ Nat.choose n k)
    (h : SlotCover n k t m) : ExactCover n k t m := by
  obtain ⟨f, hsize, hcov⟩ := h
  set B : Finset (Finset (Fin n)) := Finset.powersetCard k Finset.univ with hB
  have hcardB : B.card = Nat.choose n k := by
    rw [hB, Finset.card_powersetCard, Finset.card_fin]
  set A : Finset (Finset (Fin n)) := Finset.image f Finset.univ with hA
  have hAB : A ⊆ B := by
    intro c hc
    obtain ⟨s, _, rfl⟩ := Finset.mem_image.mp hc
    rw [hB, Finset.mem_powersetCard]
    exact ⟨Finset.subset_univ _, hsize s⟩
  have hcardA : A.card ≤ m := by
    calc A.card ≤ (Finset.univ : Finset (Fin m)).card := Finset.card_image_le
      _ = m := Finset.card_fin m
  obtain ⟨C, hAC, hCB, hcardC⟩ :=
    Finset.exists_intermediate_set (m - A.card) (by omega) hAB
  refine ⟨C, by omega, ?_, ?_⟩
  · intro c hc
    have := hCB hc
    rw [hB, Finset.mem_powersetCard] at this
    exact this.2
  · intro h hh
    obtain ⟨s, hs⟩ := hcov h hh
    exact ⟨f s, hAC (Finset.mem_image.mpr ⟨s, Finset.mem_univ s, rfl⟩), hs⟩

theorem slotCover_mono {n k t m : ℕ} (hk : k ≤ n) (h : SlotCover n k t m) :
    SlotCover n k t (m + 1) := by
  obtain ⟨f, hsize, hcov⟩ := h
  obtain ⟨c₀, _, hc₀⟩ := Finset.exists_smaller_set (Finset.univ : Finset (Fin n)) k
    (by rw [Finset.card_fin]; exact hk)
  refine ⟨fun i => if hi : (i : ℕ) < m then f ⟨i, hi⟩ else c₀, ?_, ?_⟩
  · intro s
    by_cases hs : (s : ℕ) < m
    · simp only [dif_pos hs]; exact hsize _
    · simp only [dif_neg hs]; exact hc₀
  · intro h hh
    obtain ⟨s, hs⟩ := hcov h hh
    refine ⟨⟨s, by omega⟩, ?_⟩
    have hlt : ((⟨(s : ℕ), by omega⟩ : Fin (m + 1)) : ℕ) < m := s.isLt
    simpa only [dif_pos hlt] using hs

theorem exactCover_mono {n k t m : ℕ} (hm : m + 1 ≤ Nat.choose n k)
    (h : ExactCover n k t m) : ExactCover n k t (m + 1) := by
  obtain ⟨S, hcard, hsize, hcov⟩ := h
  set B : Finset (Finset (Fin n)) := Finset.powersetCard k Finset.univ with hB
  have hcardB : B.card = Nat.choose n k := by
    rw [hB, Finset.card_powersetCard, Finset.card_fin]
  have hex : ∃ c ∈ B, c ∉ S := by
    by_contra hcon
    push_neg at hcon
    have : B ⊆ S := fun c hc => hcon c hc
    have := Finset.card_le_card this
    omega
  obtain ⟨c, hcB, hcS⟩ := hex
  refine ⟨insert c S, ?_, ?_, ?_⟩
  · rw [Finset.card_insert_of_not_mem hcS, hcard]
  · intro d hd
    rcases Finset.mem_insert.mp hd with h | h
    · subst h
      rw [hB, Finset.mem_powersetCard] at hcB
      exact hcB.2
    · exact hsize d h
  · intro h hh
    obtain ⟨d, hd, hcovd⟩ := hcov h hh
    exact ⟨d, Finset.mem_insert_of_mem hd, hcovd⟩

end AbstractCover

/-- Sum of `Bool.toNat` over a finite index type counts the `true`
positions. -/
theorem sum_toNat_eq_card_filter {α : Type} [Fintype α] (f : α → Bool) :
    (∑ a, (f a).toNat) = (Finset.univ.filter (fun a => f a = true)).card := by
  rw [Finset.card_filter]
  apply Finset.sum_congr rfl
  intro a _
  cases h : f a <;> simp

theorem exists_true_of_one_le_sum_toNat {α : Type} [Fintype α] {f : α → Bool}
    (h : 1 ≤ ∑ a, (f a).toNat) : ∃ a, f a = true := by
  by_contra hc
  push_neg at hc
  have hz : ∀ a ∈ Finset.univ, (f a).toNat = 0 := by
    intro a _
    have := hc a
    cases hfa : f a
    · simp
    · exact absurd hfa (by simpa using this)
  rw [Finset.sum_eq_zero hz] at h
  omega

theorem one_le_sum_toNat_of_true {α : Type} [Fintype α] {g : α → Bool}
    {a : α} (h : g a = true) : 1 ≤ ∑ b, (g b).toNat := by
  have hle : (g a).toNat ≤ ∑ b, (g b).toNat :=
    Finset.single_le_sum (f := fun b => (g b).toNat)
      (fun b _ => Nat.zero_le _) (Finset.mem_univ a)
  rw [h] at hle
  exact hle

theorem list_map_sum_ones {l : List ℕ} {g : ℕ → ℕ} (h : ∀ e ∈ l, g e = 1) :
    (l.map g).sum = l.length := by
  induction l with
  | nil => simp
  | cons a as ih =>
    simp only [List.map_cons, List.sum_cons, List.length_cons,
      h a (List.mem_cons_self a as),
      ih (fun e he => h e (List.mem_cons_of_mem a he))]
    omega

/-- The single linking inequality posted per `(hit set, slot)` pair by
`subset_cover_ilp.py` lines 125-138, `subset_cover_cp.py` lines 53-66 and
`min_subset_cover_ilp.py` lines 155-168:
`sum(Member(slot, e) for e in hit_set) >= hit_set_size * IsHit(hit_set, slot)`,
stated over the list of 0/1 values the membership variables take on the hit
set's elements. -/
def linkingInequality (t : ℕ) (memberVals : List ℕ) (isHitVal : ℕ) : Prop :=
  t * isHitVal ≤ memberVals.sum

instance (t : ℕ) (memberVals : List ℕ) (isHitVal : ℕ) :
    Decidable (linkingInequality t memberVals isHitVal) := by
  unfold linkingInequality; infer_instance

/-- The implication "if every element of the hit set is a member of the
choice set, then the hit indicator is 1", stated over the same value
lists. -/
def forwardImplicationProp (memberVals : List ℕ) (isHitVal : ℕ) : Prop :=
  (∀ v ∈ memberVals, v = 1) → isHitVal = 1

instance (memberVals : List ℕ) (isHitVal : ℕ) :
    Decidable (forwardImplicationProp memberVals isHitVal) := by
  unfold forwardImplicationProp; infer_instance

/-- The converse implication "if the hit indicator is 1, then every element
of the hit set is a member of the choice set". -/
def isHitForcesMembersProp (memberVals : List ℕ) (isHitVal : ℕ) : Prop :=
  isHitVal = 1 → ∀ v ∈ memberVals, v = 1

instance (memberVals : List ℕ) (isHitVal : ℕ) :
    Decidable (isHitForcesMembersProp memberVals isHitVal) := by
  unfold isHitForcesMembersProp; infer_instance

namespace SubsetCoverILP

open CommonModel AbstractCover

/-- `subset_cover_ilp.py` lines 62-65: a verbatim module-local duplicate of
`common_model.make_hit_sets`. -/
def make_hit_sets (elements : List ℕ) (hit_set_size : ℕ) : List (List ℕ) :=
  (combinations hit_set_size elements).map pySorted

/-- `subset_cover_ilp.py` line 105: the hit sets built by `solve`. -/
def hit_sets (p : SubsetCoverParameters) : List (List ℕ) :=
  make_hit_sets (List.range p.num_elements) p.hit_set_size

/-- The value of the 0/1 variable `Member_(s,e)` (`solver.IntVar(0, 1, ...)`)
under a Boolean assignment; hit sets only ever reference elements below
`num_elements`. -/
def memVal (p : SubsetCoverParameters)
    (member : Fin p.num_choice_sets → Fin p.num_elements → Bool)
    (s : Fin p.num_choice_sets) (e : ℕ) : ℕ :=
  if h : e < p.num_elements then (member s ⟨e, h⟩).toNat else 0

/-- `subset_cover_ilp.py` lines 111-115: each choice set must have size
`choice_set_size`. -/
def sizeConstraints (p : SubsetCoverParameters)
    (member : Fin p.num_choice_sets → Fin p.num_elements → Bool) : Prop :=
  ∀ s, (∑ e, (member s e).toNat) = p.choice_set_size

instance (p : SubsetCoverParameters) (member) :
    Decidable (sizeConstraints p member) := by
  unfold sizeConstraints; infer_instance

/-- `subset_cover_ilp.py` lines 117-121: each hit set must be hit by at
least one choice set. -/
def coverageConstraints (p : SubsetCoverParameters)
    (isHit : Fin (hit_sets p).length → Fin p.num_choice_sets → Bool) : Prop :=
  ∀ i, 1 ≤ ∑ s, (isHit i s).toNat

instance (p : SubsetCoverParameters) (isHit) :
    Decidable (coverageConstraints p isHit) := by
  unfold coverageConstraints; infer_instance

/-- `subset_cover_ilp.py` lines 125-138: for each `IsHit` variable, the
linking inequality over the hit set's membership variables. -/
def linkConstraints (p : SubsetCoverParameters)
    (member : Fin p.num_choice_sets → Fin p.num_elements → Bool)
    (isHit : Fin (hit_sets p).length → Fin p.num_choice_sets → Bool) : Prop :=
  ∀ i s, linkingInequality p.hit_set_size
    (((hit_sets p).get i).map (memVal p member s)) ((isHit i s).toNat)

instance (p : SubsetCoverParameters) (member) (isHit) :
    Decidable (linkConstraints p member isHit) := by
  unfold linkConstraints; infer_instance

/-- The complete constraint model `SubsetCoverILP.solve` posts. -/
def modelSat (p : SubsetCoverParameters)
    (member : Fin p.num_choice_sets → Fin p.num_elements → Bool)
    (isHit : Fin (hit_sets p).length → Fin p.num_choice_sets → Bool) : Prop :=
  sizeConstraints p member ∧ coverageConstraints p isHit ∧
    linkConstraints p member isHit

instance (p : SubsetCoverParameters) (member) (isHit) :
    Decidable (modelSat p member isHit) := by
  unfold modelSat; infer_instance

/-- Satisfiability of the posted model over its 0/1 decision variables. -/
def feasible (p : SubsetCoverParameters) : Prop :=
  ∃ member isHit, modelSat p member isHit

instance (p : SubsetCoverParameters) : Decidable (feasible p) := by
  unfold feasible; infer_instance

/-- `subset_cover_ilp.py` lines 159-178: the status-classification branches
of `SubsetCoverILP.solve`. -/
def classify : MPSolverStatus → SolveStatus
  | .OPTIMAL => .SOLVED
  | .FEASIBLE => .SOLVED
  | .INFEASIBLE => .INFEASIBLE
  | _ => .UNKNOWN

/-- The SCIP backend modelled as a sound and complete decision procedure for
the posted model (the backend itself is an opaque external dependency). -/
def backendStatus (p : SubsetCoverParameters) : MPSolverStatus :=
  if feasible p then .OPTIMAL else .INFEASIBLE

/-- `solve` under the exact-backend model: decide the posted constraints,
then classify the backend status exactly as the code does. -/
def solveExact (p : SubsetCoverParameters) : SolveStatus :=
  classify (backendStatus p)

theorem ilp_solveExact_eq_SOLVED_iff (p : SubsetCoverParameters) :
    solveExact p = .SOLVED ↔ feasible p := by
  unfold solveExact backendStatus
  by_cases h : feasible p
  · simp [h, classify]
  · simp [h, classify]

theorem ilp_solveExact_eq_INFEASIBLE_iff (p : SubsetCoverParameters) :
    solveExact p = .INFEASIBLE ↔ ¬ feasible p := by
  unfold solveExact backendStatus
  by_cases h : feasible p
  · simp [h, classify]
  · simp [h, classify]

theorem ilp_hit_sets_eq (p : SubsetCoverParameters) :
    hit_sets p = combinations p.hit_set_size (List.range p.num_elements) :=
  make_hit_sets_range p.num_elements p.hit_set_size

theorem mem_hit_sets_length {p : SubsetCoverParameters} {h : List ℕ}
    (hh : h ∈ hit_sets p) : h.length = p.hit_set_size := by
  rw [ilp_hit_sets_eq] at hh
  exact length_of_mem_combinations hh

theorem ilp_mem_hit_sets_bound {p : SubsetCoverParameters} {h : List ℕ}
    (hh : h ∈ hit_sets p) : ∀ e ∈ h, e < p.num_elements := by
  rw [ilp_hit_sets_eq] at hh
  exact (mem_combinations_range.mp hh).2.2

/-- The ILP feasibility model is satisfiable exactly when `m` anonymous
`k`-subsets of the universe jointly contain every hit set. -/
theorem ilp_feasible_iff_slotCover (p : SubsetCoverParameters) :
    feasible p ↔ SlotCover p.num_elements p.choice_set_size
      p.hit_set_size p.num_choice_sets := by
  constructor
  · rintro ⟨member, isHit, hsz, hcov, hlink⟩
    refine ⟨fun s => Finset.univ.filter (fun e => member s e = true), ?_, ?_⟩
    · intro s
      rw [← sum_toNat_eq_card_filter]
      exact hsz s
    · intro h hh
      obtain ⟨i, hi⟩ := List.get_of_mem hh
      obtain ⟨s, hs⟩ := exists_true_of_one_le_sum_toNat (hcov i)
      refine ⟨s, ?_⟩
      have hlink' := hlink i s
      rw [hs] at hlink'
      unfold linkingInequality at hlink'
      simp only [Bool.toNat_true, mul_one] at hlink'
      have hi' : (hit_sets p).get i = h := hi
      rw [hi'] at hlink'
      have hlen : h.length = p.hit_set_size := mem_hit_sets_length hh
      have hones : ∀ v ∈ h.map (memVal p member s), v = 1 := by
        apply all_one_of_sum_ge_length
        · intro v hv
          obtain ⟨e, _, rfl⟩ := List.mem_map.mp hv
          unfold memVal
          split
          · exact Bool.toNat_le _
          · omega
        · rw [List.length_map, hlen]
          omega
      intro e he
      have h1 : memVal p member s e = 1 :=
        hones _ (List.mem_map.mpr ⟨e, he, rfl⟩)
      unfold memVal at h1
      split at h1
      · next hb =>
        refine ⟨⟨e, hb⟩, ?_, rfl⟩
        simp only [Finset.mem_filter, Finset.mem_univ, true_and]
        cases hmem : member s ⟨e, hb⟩
        · rw [hmem] at h1; simp at h1
        · rfl
      · omega
  · rintro ⟨f, hsz, hcov⟩
    refine ⟨fun s e => decide (e ∈ f s),
      fun i s => decide (coversList p.num_elements (f s) ((hit_sets p).get i)),
      ?_, ?_, ?_⟩
    · intro s
      rw [sum_toNat_eq_card_filter]
      have : (Finset.univ.filter (fun e => decide (e ∈ f s) = true)) = f s := by
        ext x
        simp
      rw [this]
      exact hsz s
    · intro i
      have hmem : (hit_sets p).get i ∈ hit_sets p := List.get_mem _ _ _
      obtain ⟨s, hs⟩ := hcov _ hmem
      exact one_le_sum_toNat_of_true (by simpa using hs)
    · intro i s
      unfold linkingInequality
      by_cases hc : coversList p.num_elements (f s) ((hit_sets p).get i)
      · have hmem : (hit_sets p).get i ∈ hit_sets p := List.get_mem _ _ _
        have hones : ∀ e ∈ (hit_sets p).get i,
            memVal p (fun s e => decide (e ∈ f s)) s e = 1 := by
          intro e he
          obtain ⟨x, hx, hxe⟩ := hc e he
          unfold memVal
          have hb : e < p.num_elements := hxe ▸ x.isLt
          rw [dif_pos hb]
          have : (⟨e, hb⟩ : Fin p.num_elements) = x := Fin.ext hxe.symm
          rw [this]
          simp [hx]
        rw [list_map_sum_ones hones, mem_hit_sets_length hmem]
        have : (decide (coversList p.num_elements (f s)
            ((hit_sets p).get i))).toNat ≤ 1 := Bool.toNat_le _
        calc p.hit_set_size * (decide (coversList p.num_elements (f s)
              ((hit_sets p).get i))).toNat
            ≤ p.hit_set_size * 1 := Nat.mul_le_mul_left _ this
          _ = p.hit_set_size := by ring
      · show p.hit_set_size * (decide (coversList p.num_elements (f s)
            ((hit_sets p).get i))).toNat ≤ _
        rw [decide_eq_false hc]
        simp

end SubsetCoverILP

namespace SubsetCoverCP

open CommonModel AbstractCover

/-- `subset_cover_cp.py` line 33: the CP encoding builds its hit sets with
`common_model.make_hit_sets`. -/
def hit_sets (p : SubsetCoverParameters) : List (List ℕ) :=
  make_hit_sets (List.range p.num_elements) p.hit_set_size

/-- The value of the 0/1 variable `Member_(s,e)`
(`model.NewIntVar(0, 1, ...)`) under a Boolean assignment. -/
def memVal (p : SubsetCoverParameters)
    (member : Fin p.num_choice_sets → Fin p.num_elements → Bool)
    (s : Fin p.num_choice_sets) (e : ℕ) : ℕ :=
  if h : e < p.num_elements then (member s ⟨e, h⟩).toNat else 0

/-- `subset_cover_cp.py` lines 39-43: each choice set must have size
`choice_set_size`. -/
def sizeConstraints (p : SubsetCoverParameters)
    (member : Fin p.num_choice_sets → Fin p.num_elements → Bool) : Prop :=
  ∀ s, (∑ e, (member s e).toNat) = p.choice_set_size

instance (p : SubsetCoverParameters) (member) :
    Decidable (sizeConstraints p member) := by
  unfold sizeConstraints; infer_instance

/-- `subset_cover_cp.py` lines 45-49: each hit set must be hit by at least
one choice set. -/
def coverageConstraints (p : SubsetCoverParameters)
    (isHit : Fin (hit_sets p).length → Fin p.num_choice_sets → Bool) : Prop :=
  ∀ i, 1 ≤ ∑ s, (isHit i s).toNat

instance (p : SubsetCoverParameters) (isHit) :
    Decidable (coverageConstraints p isHit) := by
  unfold coverageConstraints; infer_instance

/-- `subset_cover_cp.py` lines 51-66: the same linking inequality as the ILP
encoding. -/
def linkConstraints (p : SubsetCoverParameters)
    (member : Fin p.num_choice_sets → Fin p.num_elements → Bool)
    (isHit : Fin (hit_sets p).length → Fin p.num_choice_sets → Bool) : Prop :=
  ∀ i s, linkingInequality p.hit_set_size
    (((hit_sets p).get i).map (memVal p member s)) ((isHit i s).toNat)

instance (p : SubsetCoverParameters) (member) (isHit) :
    Decidable (linkConstraints p member isHit) := by
  unfold linkConstraints; infer_instance

/-- The complete constraint model `SubsetCoverCP.solve` posts. -/
def modelSat (p : SubsetCoverParameters)
    (member : Fin p.num_choice_sets → Fin p.num_elements → Bool)
    (isHit : Fin (hit_sets p).length → Fin p.num_choice_sets → Bool) : Prop :=
  sizeConstraints p member ∧ coverageConstraints p isHit ∧
    linkConstraints p member isHit

instance (p : SubsetCoverParameters) (member) (isHit) :
    Decidable (modelSat p member isHit) := by
  unfold modelSat; infer_instance

/-- Satisfiability of the posted CP model over its 0/1 decision variables. -/
def feasible (p : SubsetCoverParameters) : Prop :=
  ∃ member isHit, modelSat p member isHit

instance (p : SubsetCoverParameters) : Decidable (feasible p) := by
  unfold feasible; infer_instance

/-- `subset_cover_cp.py` lines 79-98: the status-classification branches of
`SubsetCoverCP.solve`.  Note only `OPTIMAL` is mapped to `SOLVED`; CP-SAT's
`FEASIBLE` (a solution was found but the search was interrupted) falls into
the `else` branch. -/
def classify : CpSolverStatus → SolveStatus
  | .OPTIMAL => .SOLVED
  | .INFEASIBLE => .INFEASIBLE
  | _ => .UNKNOWN

/-- The CP-SAT backend modelled as a sound and complete decision procedure
for the posted model (on a satisfaction problem, a completed successful
search reports `OPTIMAL`). -/
def backendStatus (p : SubsetCoverParameters) : CpSolverStatus :=
  if feasible p then .OPTIMAL else .INFEASIBLE

/-- `solve` under the exact-backend model. -/
def solveExact (p : SubsetCoverParameters) : SolveStatus :=
  classify (backendStatus p)

/-- The CP model is definitionally the ILP model: `subset_cover_cp.py`
posts the same three constraint families over the same variables. -/
theorem feasible_iff_ilp (p : SubsetCoverParameters) :
    feasible p ↔ SubsetCoverILP.feasible p :=
  Iff.rfl

theorem cp_solveExact_eq_SOLVED_iff (p : SubsetCoverParameters) :
    solveExact p = .SOLVED ↔ feasible p := by
  unfold solveExact backendStatus
  by_cases h : feasible p
  · simp [h, classify]
  · simp [h, classify]

theorem cp_solveExact_eq_INFEASIBLE_iff (p : SubsetCoverParameters) :
    solveExact p = .INFEASIBLE ↔ ¬ feasible p := by
  unfold solveExact backendStatus
  by_cases h : feasible p
  · simp [h, classify]
  · simp [h, classify]

end SubsetCoverCP

namespace SubsetCoverZ3

open CommonModel AbstractCover

/-- `subset_cover_z3.py` lines 67-71: the hit-set dictionary keyed by
`tuple(sorted(elts))` over `combinations(elements, hit_set_size)`, in
insertion order. -/
def hit_sets (p : SubsetCoverParameters) : List (List ℕ) :=
  (combinations p.hit_set_size (List.range p.num_elements)).map pySorted

/-- The value of the symbolic integer `Member_(s,e)` (`z3.Int`); hit sets
only ever reference elements below `num_elements`. -/
def memVal (p : SubsetCoverParameters)
    (member : Fin p.num_choice_sets → Fin p.num_elements → ℤ)
    (s : Fin p.num_choice_sets) (e : ℕ) : ℤ :=
  if h : e < p.num_elements then member s ⟨e, h⟩ else 0

/-- `subset_cover_z3.py` lines 60-65: each choice set must have a specific
size. -/
def sizeConstraints (p : SubsetCoverParameters)
    (member : Fin p.num_choice_sets → Fin p.num_elements → ℤ) : Prop :=
  ∀ s, (∑ e, member s e) = (p.choice_set_size : ℤ)

/-- `subset_cover_z3.py` lines 117-119: `mem.variable >= 0` and
`mem.variable <= 1` for every membership variable. -/
def boundConstraints (p : SubsetCoverParameters)
    (member : Fin p.num_choice_sets → Fin p.num_elements → ℤ) : Prop :=
  ∀ s e, 0 ≤ member s e ∧ member s e ≤ 1

/-- `subset_cover_z3.py` lines 121-122: every hit-set variable is asserted
equal to 1. -/
def hitAsserted (p : SubsetCoverParameters)
    (hit : Fin (hit_sets p).length → ℤ) : Prop :=
  ∀ i, hit i = 1

/-- `subset_cover_z3.py` lines 81-89: for each choice set and each
`hit_set_size`-subset of its membership variables, the implication
`And(all members == 1) => Hit == 1`; the subsets of a slot's membership
variables correspond exactly to the hit sets. -/
def forwardConstraints (p : SubsetCoverParameters)
    (member : Fin p.num_choice_sets → Fin p.num_elements → ℤ)
    (hit : Fin (hit_sets p).length → ℤ) : Prop :=
  ∀ s i, (∀ e ∈ (hit_sets p).get i, memVal p member s e = 1) → hit i = 1

/-- `subset_cover_z3.py` lines 100-110: for each hit set, the implication
`Hit == 1 => Or over slots of And(all its members == 1)`. -/
def backwardConstraints (p : SubsetCoverParameters)
    (member : Fin p.num_choice_sets → Fin p.num_elements → ℤ)
    (hit : Fin (hit_sets p).length → ℤ) : Prop :=
  ∀ i, hit i = 1 → ∃ s, ∀ e ∈ (hit_sets p).get i, memVal p member s e = 1

/-- The complete constraint model `SubsetCoverZ3.solve` posts. -/
def modelSat (p : SubsetCoverParameters)
    (member : Fin p.num_choice_sets → Fin p.num_elements → ℤ)
    (hit : Fin (hit_sets p).length → ℤ) : Prop :=
  sizeConstraints p member ∧ boundConstraints p member ∧
    hitAsserted p hit ∧ forwardConstraints p member hit ∧
    backwardConstraints p member hit

/-- Satisfiability of the posted model over its integer variables. -/
def feasible (p : SubsetCoverParameters) : Prop :=
  ∃ member hit, modelSat p member hit

theorem hit_sets_eq_make (p : SubsetCoverParameters) :
    hit_sets p =
      make_hit_sets (List.range p.num_elements) p.hit_set_size := rfl

theorem z3_hit_sets_eq (p : SubsetCoverParameters) :
    hit_sets p = combinations p.hit_set_size (List.range p.num_elements) := by
  rw [hit_sets_eq_make]
  exact make_hit_sets_range p.num_elements p.hit_set_size

theorem z3_mem_hit_sets_bound {p : SubsetCoverParameters} {h : List ℕ}
    (hh : h ∈ hit_sets p) : ∀ e ∈ h, e < p.num_elements := by
  rw [z3_hit_sets_eq] at hh
  exact (mem_combinations_range.mp hh).2.2

/-- The Z3 integer feasibility model is satisfiable exactly when `m`
anonymous `k`-subsets of the universe jointly contain every hit set. -/
theorem z3_feasible_iff_slotCover (p : SubsetCoverParameters) :
    feasible p ↔ SlotCover p.num_elements p.choice_set_size
      p.hit_set_size p.num_choice_sets := by
  constructor
  · rintro ⟨member, hit, hsz, hbd, hasrt, _hfwd, hbwd⟩
    refine ⟨fun s => Finset.univ.filter
      (fun e => decide (member s e = 1) = true), ?_, ?_⟩
    · intro s
      have hval : ∀ e, member s e =
          ((decide (member s e = 1)).toNat : ℤ) := by
        intro e
        obtain ⟨h0, h1⟩ := hbd s e
        have h01 : member s e = 0 ∨ member s e = 1 := by omega
        rcases h01 with h | h
        · have hd : decide (member s e = 1) = false := decide_eq_false (by omega)
          rw [hd, h]
          simp
        · have hd : decide (member s e = 1) = true := decide_eq_true h
          rw [hd, h]
          simp
      have hcast : ((∑ e, (decide (member s e = 1)).toNat : ℕ) : ℤ) =
          (p.choice_set_size : ℤ) := by
        push_cast
        rw [← Finset.sum_congr rfl (fun e _ => (hval e))]
        exact hsz s
      have hnat : (∑ e, (decide (member s e = 1)).toNat) =
          p.choice_set_size := by
        exact_mod_cast hcast
      rw [← hnat, sum_toNat_eq_card_filter]
    · intro h hh
      have hh' : h ∈ hit_sets p := hh
      obtain ⟨i, hi⟩ := List.get_of_mem hh'
      obtain ⟨s, hs⟩ := hbwd i (hasrt i)
      refine ⟨s, ?_⟩
      intro e he
      have he' : e ∈ (hit_sets p).get i := by rw [hi]; exact he
      have h1 := hs e he'
      unfold memVal at h1
      have hb : e < p.num_elements := z3_mem_hit_sets_bound hh' e (hi ▸ he')
      rw [dif_pos hb] at h1
      exact ⟨⟨e, hb⟩, by simp [h1], rfl⟩
  · rintro ⟨f, hsz, hcov⟩
    refine ⟨fun s e => if e ∈ f s then (1 : ℤ) else 0, fun _ => 1,
      ?_, ?_, ?_, ?_, ?_⟩
    · intro s
      rw [Finset.sum_ite_mem, Finset.univ_inter, Finset.sum_const, hsz s]
      simp
    · intro s e
      by_cases hef : e ∈ f s <;> simp [hef]
    · intro i
      rfl
    · intro s i _
      rfl
    · intro i _
      have hmem : (hit_sets p).get i ∈ hit_sets p := List.get_mem _ _ _
      obtain ⟨s, hs⟩ := hcov _ hmem
      refine ⟨s, ?_⟩
      intro e he
      obtain ⟨x, hx, hxe⟩ := hs e he
      unfold memVal
      rw [dif_pos (hxe ▸ x.isLt)]
      have hxx : (⟨e, hxe ▸ x.isLt⟩ : Fin p.num_elements) = x := Fin.ext hxe.symm
      simp [hxx, hx]

instance (p : SubsetCoverParameters) : Decidable (feasible p) :=
  decidable_of_iff _ (z3_feasible_iff_slotCover p).symm

/-- `subset_cover_z3.py` line 113: `solver.set("timeout", 60*5)`; z3's
`timeout` parameter is in milliseconds, so the configured budget is 300
milliseconds. -/
def timeout_config_ms : ℕ := 60 * 5

/-- `subset_cover_z3.py` lines 140-163: the result-classification branches
of `SubsetCoverZ3.solve` (`unsat`, then `unknown`, then the solved path). -/
def classify : Z3CheckResult → SolveStatus
  | .unsat => .INFEASIBLE
  | .unknown => .UNKNOWN
  | .sat => .SOLVED

/-- The z3 backend modelled as a sound and complete decision procedure for
the posted model. -/
def backendCheck (p : SubsetCoverParameters) : Z3CheckResult :=
  if feasible p then .sat else .unsat

/-- `solve` under the exact-backend model. -/
def solveExact (p : SubsetCoverParameters) : SolveStatus :=
  classify (backendCheck p)

theorem z3_solveExact_eq_SOLVED_iff (p : SubsetCoverParameters) :
    solveExact p = .SOLVED ↔ feasible p := by
  unfold solveExact backendCheck
  by_cases h : feasible p
  · simp [h, classify]
  · simp [h, classify]

theorem z3_solveExact_eq_INFEASIBLE_iff (p : SubsetCoverParameters) :
    solveExact p = .INFEASIBLE ↔ ¬ feasible p := by
  unfold solveExact backendCheck
  by_cases h : feasible p
  · simp [h, classify]
  · simp [h, classify]

end SubsetCoverZ3

/-- Python runtime exceptions surfaced by the embedding: `NameError` for an
unresolved identifier, and `Z3Exception` for a failed assertion inside z3's
Python API (its message string). -/
inductive PyError where
  | nameError (ident : String)
  | z3Exception (msg : String)
deriving DecidableEq, Repr

namespace SubsetCoverZ3

/-- Degenerate parameters on which `SubsetCoverZ3.solve` raises inside z3's
Python API during model construction, before any solver is invoked:
with zero choice sets and a nonempty hit-set dictionary
(`hit_set_size ≤ num_elements`), the backward implication at
`subset_cover_z3.py` line 110 is built as `Or()` over an empty clause list
(one clause per choice set), and z3's `Or` with no arguments raises
`Z3Exception`; with at least one choice set and `hit_set_size = 0`, the
forward implication at line 88 is built as `And()` over an empty membership
subset, which raises the same way. -/
def constructionRaises (p : SubsetCoverParameters) : Prop :=
  (p.num_choice_sets = 0 ∧ p.hit_set_size ≤ p.num_elements) ∨
    (1 ≤ p.num_choice_sets ∧ p.hit_set_size = 0)

instance (p : SubsetCoverParameters) : Decidable (constructionRaises p) := by
  unfold constructionRaises; infer_instance

/-- The full runtime behaviour of `SubsetCoverZ3.solve`: on the degenerate
parameters above, model construction raises `Z3Exception` and no status is
ever returned; otherwise the posted model is decided by the exact backend
and classified as in `solveExact`. -/
def solve (p : SubsetCoverParameters) : Except PyError SolveStatus :=
  if constructionRaises p then
    .error (.z3Exception
      "At least one of the arguments must be a Z3 expression or probe")
  else .ok (solveExact p)

theorem z3_solve_eq_ok {p : SubsetCoverParameters}
    (h : ¬ constructionRaises p) : solve p = .ok (solveExact p) := by
  unfold solve
  rw [if_neg h]

theorem z3_solve_eq_error {p : SubsetCoverParameters}
    (h : constructionRaises p) :
    solve p = .error (.z3Exception
      "At least one of the arguments must be a Z3 expression or probe") := by
  unfold solve
  rw [if_pos h]

end SubsetCoverZ3

namespace SubsetCoverZ3Cardinality

/-- `subset_cover_z3_cardinality.py` line 100: `solver.set("timeout", 60*5)`;
z3's `timeout` parameter is in milliseconds.  The line is unreachable at
runtime (see `solve`). -/
def timeout_config_ms : ℕ := 60 * 5

/-- The Python runtime behaviour of `SubsetCoverZ3Cardinality.solve`: its
first model-building statement (`subset_cover_z3_cardinality.py` line 47)
evaluates `ChoiceSetMembers(elements, choice_sets)`, but `ChoiceSetMembers`
is neither defined in that module nor imported by it, so by Python name
resolution the call raises `NameError` for every parameter value, before any
constraint is built or any solver status can be returned. -/
def solve (_p : SubsetCoverParameters) : Except PyError SolveStatus :=
  .error (.nameError "ChoiceSetMembers")

end SubsetCoverZ3Cardinality

namespace SubsetCoverZ3BruteForce

open CommonModel AbstractCover

/-- `subset_cover_z3_brute_force.py` lines 42-47: one named candidate choice
set per `k`-combination of the universe, in combination order. -/
def choice_sets (p : SubsetCoverParameters) : List (List ℕ) :=
  combinations p.choice_set_size (List.range p.num_elements)

/-- `subset_cover_z3_brute_force.py` lines 49-53: the hit-set dictionary
keyed by `tuple(sorted(elts))`, in insertion order. -/
def hit_sets (p : SubsetCoverParameters) : List (List ℕ) :=
  (combinations p.hit_set_size (List.range p.num_elements)).map pySorted

/-- Hit set `i` is one of the `hit_set_size`-subsets of candidate `j`'s
elements: the containment relation the code precomputes at lines 66-70 by
iterating `combinations(choice_set.elements, hit_set_size)` and looking up
the sorted key. -/
def coveredBy (p : SubsetCoverParameters) (i : Fin (hit_sets p).length)
    (j : Fin (choice_sets p).length) : Prop :=
  (hit_sets p).get i ∈
    (combinations p.hit_set_size ((choice_sets p).get j)).map pySorted

instance (p : SubsetCoverParameters) (i : Fin (hit_sets p).length)
    (j : Fin (choice_sets p).length) : Decidable (coveredBy p i j) := by
  unfold coveredBy; infer_instance

/-- `subset_cover_z3_brute_force.py` lines 96-97: every hit-set variable is
asserted true. -/
def hitAsserted (p : SubsetCoverParameters)
    (hit : Fin (hit_sets p).length → Bool) : Prop :=
  ∀ i, hit i = true

/-- `subset_cover_z3_brute_force.py` lines 66-72: `Implies(Choice, Hit)` for
every candidate and every hit set it contains. -/
def forwardConstraints (p : SubsetCoverParameters)
    (choice : Fin (choice_sets p).length → Bool)
    (hit : Fin (hit_sets p).length → Bool) : Prop :=
  ∀ j i, coveredBy p i j → choice j = true → hit i = true

/-- `subset_cover_z3_brute_force.py` lines 81-87: `Implies(Hit, Or(...))`
over the candidates containing the hit set. -/
def backwardConstraints (p : SubsetCoverParameters)
    (choice : Fin (choice_sets p).length → Bool)
    (hit : Fin (hit_sets p).length → Bool) : Prop :=
  ∀ i, hit i = true → ∃ j, coveredBy p i j ∧ choice j = true

/-- `subset_cover_z3_brute_force.py` lines 89-91, 102:
`AtMost(choices..., num_choice_sets)`. -/
def atMostConstraint (p : SubsetCoverParameters)
    (choice : Fin (choice_sets p).length → Bool) : Prop :=
  (∑ j, (choice j).toNat) ≤ p.num_choice_sets

/-- `subset_cover_z3_brute_force.py` lines 89-92, 103:
`AtLeast(choices..., num_choice_sets)`. -/
def atLeastConstraint (p : SubsetCoverParameters)
    (choice : Fin (choice_sets p).length → Bool) : Prop :=
  p.num_choice_sets ≤ (∑ j, (choice j).toNat)

/-- The complete constraint model `SubsetCoverZ3BruteForce.solve` posts. -/
def modelSat (p : SubsetCoverParameters)
    (choice : Fin (choice_sets p).length → Bool)
    (hit : Fin (hit_sets p).length → Bool) : Prop :=
  hitAsserted p hit ∧ forwardConstraints p choice hit ∧
    backwardConstraints p choice hit ∧ atMostConstraint p choice ∧
    atLeastConstraint p choice

instance (p : SubsetCoverParameters) (choice) (hit) :
    Decidable (modelSat p choice hit) := by
  unfold modelSat hitAsserted forwardConstraints backwardConstraints
    atMostConstraint atLeastConstraint
  infer_instance

/-- Satisfiability of the posted model over its Boolean variables. -/
def feasible (p : SubsetCoverParameters) : Prop :=
  ∃ choice hit, modelSat p choice hit

instance (p : SubsetCoverParameters) : Decidable (feasible p) := by
  unfold feasible; infer_instance

/-- `subset_cover_z3_brute_force.py` line 95:
`solver.set("timeout", 1000 * 60 * 15)` (milliseconds). -/
def timeout_config_ms : ℕ := 1000 * 60 * 15

/-- `subset_cover_z3_brute_force.py` lines 112-131: the
result-classification branches of `SubsetCoverZ3BruteForce.solve`. -/
def classify : Z3CheckResult → SolveStatus
  | .unsat => .INFEASIBLE
  | .unknown => .UNKNOWN
  | .sat => .SOLVED

/-- The z3 backend modelled as a sound and complete decision procedure for
the posted model. -/
def backendCheck (p : SubsetCoverParameters) : Z3CheckResult :=
  if feasible p then .sat else .unsat

/-- `solve` under the exact-backend model. -/
def solveExact (p : SubsetCoverParameters) : SolveStatus :=
  classify (backendCheck p)

theorem bf_solveExact_eq_SOLVED_iff (p : SubsetCoverParameters) :
    solveExact p = .SOLVED ↔ feasible p := by
  unfold solveExact backendCheck
  by_cases h : feasible p
  · simp [h, classify]
  · simp [h, classify]

theorem bf_solveExact_eq_INFEASIBLE_iff (p : SubsetCoverParameters) :
    solveExact p = .INFEASIBLE ↔ ¬ feasible p := by
  unfold solveExact backendCheck
  by_cases h : feasible p
  · simp [h, classify]
  · simp [h, classify]

theorem bf_hit_sets_eq (p : SubsetCoverParameters) :
    hit_sets p = combinations p.hit_set_size (List.range p.num_elements) :=
  make_hit_sets_range p.num_elements p.hit_set_size

theorem length_choice_sets (p : SubsetCoverParameters) :
    (choice_sets p).length =
      Nat.choose p.num_elements p.choice_set_size := by
  unfold choice_sets
  rw [length_combinations, List.length_range]

theorem mem_choice_sets {p : SubsetCoverParameters} {c : List ℕ} :
    c ∈ choice_sets p ↔
      c.Sorted (· < ·) ∧ c.length = p.choice_set_size ∧
        ∀ e ∈ c, e < p.num_elements :=
  mem_combinations_range

theorem mem_hit_sets {p : SubsetCoverParameters} {h : List ℕ}
    (hh : h ∈ hit_sets p) :
    h.Sorted (· < ·) ∧ h.length = p.hit_set_size ∧
      ∀ e ∈ h, e < p.num_elements := by
  rw [bf_hit_sets_eq] at hh
  exact mem_combinations_range.mp hh

theorem coveredBy_iff {p : SubsetCoverParameters} {i : Fin (hit_sets p).length}
    {j : Fin (choice_sets p).length} :
    coveredBy p i j ↔ ∀ e ∈ (hit_sets p).get i, e ∈ (choice_sets p).get j := by
  have hhit : (hit_sets p).get i ∈ hit_sets p := List.get_mem _ _ _
  have hch : (choice_sets p).get j ∈ choice_sets p := List.get_mem _ _ _
  obtain ⟨hhs, hhl, hhb⟩ := mem_hit_sets hhit
  obtain ⟨hcs, hcl, hcb⟩ := mem_choice_sets.mp hch
  constructor
  · intro hcov e he
    obtain ⟨c, hc, hcsort⟩ := List.mem_map.mp hcov
    rw [← hcsort] at he
    have : e ∈ c := (List.perm_insertionSort (· ≤ ·) c).mem_iff.mp he
    exact (sublist_of_mem_combinations hc).subset this
  · intro hsub
    unfold coveredBy
    refine List.mem_map.mpr ⟨(hit_sets p).get i, ?_, ?_⟩
    · refine mem_combinations.mpr ⟨?_, hhl⟩
      exact sublist_of_sorted_subset _ _ hhs hcs hsub
    · exact List.Sorted.insertionSort_eq (hhs.imp (fun h => le_of_lt h))

/-- The brute-force model is satisfiable exactly when some family of exactly
`m` distinct `k`-subsets jointly contains every hit set. -/
theorem feasible_iff_exactCover (p : SubsetCoverParameters) :
    feasible p ↔ ExactCover p.num_elements p.choice_set_size
      p.hit_set_size p.num_choice_sets := by
  have hnodupC : (choice_sets p).Nodup :=
    nodup_combinations (sorted_lt_range p.num_elements)
  constructor
  · rintro ⟨choice, hit, hasrt, _hfwd, hbwd, hatm, hatl⟩
    unfold atMostConstraint at hatm
    unfold atLeastConstraint at hatl
    refine ⟨Finset.image
      (fun j => finsetOfList p.num_elements ((choice_sets p).get j))
      (Finset.univ.filter (fun j => choice j = true)), ?_, ?_, ?_⟩
    · rw [Finset.card_image_of_injOn, ← sum_toNat_eq_card_filter]
      · omega
      · intro a _ b _ hab
        have hga := mem_choice_sets.mp
          (List.get_mem (choice_sets p) _ a.isLt)
        have hgb := mem_choice_sets.mp
          (List.get_mem (choice_sets p) _ b.isLt)
        have heq : (choice_sets p).get a = (choice_sets p).get b :=
          finsetOfList_inj hga.1 hga.2.2 hgb.1 hgb.2.2 hab
        exact hnodupC.get_inj_iff.mp heq
    · intro c hc
      obtain ⟨j, _, rfl⟩ := Finset.mem_image.mp hc
      have hgj := mem_choice_sets.mp (List.get_mem (choice_sets p) _ j.isLt)
      rw [card_finsetOfList hgj.1.nodup hgj.2.2, hgj.2.1]
    · intro h hh
      have hh' : h ∈ hit_sets p := hh
      obtain ⟨i, hi⟩ := List.get_of_mem hh'
      obtain ⟨j, hcov, hcj⟩ := hbwd i (hasrt i)
      refine ⟨finsetOfList p.num_elements ((choice_sets p).get j),
        Finset.mem_image.mpr ⟨j, by
          simp only [Finset.mem_filter, Finset.mem_univ, true_and]
          exact hcj, rfl⟩, ?_⟩
      intro e he
      have he' : e ∈ (hit_sets p).get i := hi ▸ he
      have hej : e ∈ (choice_sets p).get j := coveredBy_iff.mp hcov e he'
      have hb : e < p.num_elements :=
        (mem_choice_sets.mp (List.get_mem (choice_sets p) _ j.isLt)).2.2 e hej
      exact ⟨⟨e, hb⟩, mem_finsetOfList.mpr hej, rfl⟩
  · rintro ⟨S, hcard, hsize, hcov⟩
    have hsurj : ∀ c ∈ S, ∃ j : Fin (choice_sets p).length,
        finsetOfList p.num_elements ((choice_sets p).get j) = c := by
      intro c hc
      have hmem : sortedListOfFinset c ∈ choice_sets p := by
        refine mem_choice_sets.mpr ⟨sorted_sortedListOfFinset c, ?_,
          bound_sortedListOfFinset c⟩
        rw [length_sortedListOfFinset, hsize c hc]
      obtain ⟨j, hj⟩ := List.get_of_mem hmem
      exact ⟨j, by rw [hj, finsetOfList_sortedListOfFinset]⟩
    have hcount : (∑ j, (decide
        (finsetOfList p.num_elements ((choice_sets p).get j) ∈ S)).toNat) =
          p.num_choice_sets := by
      rw [sum_toNat_eq_card_filter, ← hcard]
      apply Finset.card_bij
        (fun j _ => finsetOfList p.num_elements ((choice_sets p).get j))
      · intro j hj
        simp only [Finset.mem_filter, Finset.mem_univ, true_and] at hj
        exact of_decide_eq_true hj
      · intro a ha b hb hab
        have hga := mem_choice_sets.mp
          (List.get_mem (choice_sets p) _ a.isLt)
        have hgb := mem_choice_sets.mp
          (List.get_mem (choice_sets p) _ b.isLt)
        have heq : (choice_sets p).get a = (choice_sets p).get b :=
          finsetOfList_inj hga.1 hga.2.2 hgb.1 hgb.2.2 hab
        exact hnodupC.get_inj_iff.mp heq
      · intro c hc
        obtain ⟨j, hj⟩ := hsurj c hc
        refine ⟨j, ?_, hj⟩
        simp only [Finset.mem_filter, Finset.mem_univ, true_and]
        exact decide_eq_true (by rw [hj]; exact hc)
    refine ⟨fun j => decide
      (finsetOfList p.num_elements ((choice_sets p).get j) ∈ S),
      fun _ => true, fun i => rfl, fun j i _ _ => rfl, ?_, ?_, ?_⟩
    · intro i _
      have hh : (hit_sets p).get i ∈ hit_sets p := List.get_mem _ _ _
      obtain ⟨c, hcS, hcovc⟩ := hcov _ hh
      obtain ⟨j, hj⟩ := hsurj c hcS
      refine ⟨j, ?_, decide_eq_true (by rw [hj]; exact hcS)⟩
      refine coveredBy_iff.mpr ?_
      intro e he
      obtain ⟨x, hx, hxe⟩ := hcovc e he
      rw [← hj] at hx
      exact hxe ▸ mem_finsetOfList.mp hx
    · unfold atMostConstraint
      show (∑ j, (decide
        (finsetOfList p.num_elements ((choice_sets p).get j) ∈ S)).toNat) ≤
          p.num_choice_sets
      exact le_of_eq hcount
    · unfold atLeastConstraint
      show p.num_choice_sets ≤ ∑ j, (decide
        (finsetOfList p.num_elements ((choice_sets p).get j) ∈ S)).toNat
      exact ge_of_eq hcount

/-- Parameters on which `subset_cover_z3_brute_force.py` line 87 raises
inside z3's Python API: when some hit set exists
(`hit_set_size ≤ num_elements`) but no candidate contains any hit set
(`choice_set_size < hit_set_size`, so candidates have no
`hit_set_size`-subsets, or `choice_set_size > num_elements`, so there are no
candidates at all), the backward implication is built as `Or()` over the
empty list of containing candidates, and z3's `Or` with no arguments raises
`Z3Exception`. -/
def orRaises (p : SubsetCoverParameters) : Prop :=
  p.hit_set_size ≤ p.num_elements ∧
    (p.choice_set_size < p.hit_set_size ∨
      p.num_elements < p.choice_set_size)

instance (p : SubsetCoverParameters) : Decidable (orRaises p) := by
  unfold orRaises; infer_instance

/-- Parameters on which `subset_cover_z3_brute_force.py` line 91 raises
inside z3's Python API (when not already stopped by the empty `Or` above):
with `choice_set_size > num_elements` the candidate list is empty, so
`AtMost(*args)` receives only the integer bound `num_choice_sets` and its
argument-count assertion raises `Z3Exception`. -/
def atMostRaises (p : SubsetCoverParameters) : Prop :=
  p.num_elements < p.choice_set_size

instance (p : SubsetCoverParameters) : Decidable (atMostRaises p) := by
  unfold atMostRaises; infer_instance

/-- The full runtime behaviour of `SubsetCoverZ3BruteForce.solve`: the
backward-implication loop runs before the cardinality constraints, so an
empty `Or` raises first; an empty candidate list with no hit sets raises in
`AtMost`; on all other parameters the posted model is decided by the exact
backend and classified as in `solveExact`. -/
def solve (p : SubsetCoverParameters) : Except PyError SolveStatus :=
  if orRaises p then
    .error (.z3Exception
      "At least one of the arguments must be a Z3 expression or probe")
  else if atMostRaises p then
    .error (.z3Exception "Non empty list of arguments expected")
  else .ok (solveExact p)

theorem bf_solve_eq_ok {p : SubsetCoverParameters} (h1 : ¬ orRaises p)
    (h2 : ¬ atMostRaises p) : solve p = .ok (solveExact p) := by
  unfold solve
  rw [if_neg h1, if_neg h2]

theorem bf_solve_eq_error_or {p : SubsetCoverParameters}
    (h : orRaises p) :
    solve p = .error (.z3Exception
      "At least one of the arguments must be a Z3 expression or probe") := by
  unfold solve
  rw [if_pos h]

end SubsetCoverZ3BruteForce

namespace SubsetCoverILP

/-- `subset_cover_ilp.py` lines 142-145: the `SetTimeLimit` call is inside a
string literal (commented out), so the feasibility ILP configures no
solve-time budget at all. -/
def time_limit_config_ms : Option ℕ := none

end SubsetCoverILP

namespace SubsetCoverCP

/-- `subset_cover_cp.py` lines 68-72:
`solver.parameters.max_time_in_seconds = 60 * 15`. -/
def time_limit_seconds : ℕ := 60 * 15

end SubsetCoverCP

namespace MinSubsetCoverILP

open CommonModel AbstractCover

/-- `min_subset_cover_ilp.py` lines 117-119: the minimization encoding
ignores the `num_choice_sets` parameter and instead allocates
`comb(num_elements, hit_set_size)` slots, one per hit set in the worst
case. -/
def num_choice_sets_allocated (p : SubsetCoverParameters) : ℕ :=
  Nat.choose p.num_elements p.hit_set_size

/-- `min_subset_cover_ilp.py` lines 66-69: a verbatim module-local duplicate
of `common_model.make_hit_sets`. -/
def make_hit_sets (elements : List ℕ) (hit_set_size : ℕ) : List (List ℕ) :=
  (combinations hit_set_size elements).map pySorted

/-- `min_subset_cover_ilp.py` line 122: the hit sets built by `solve`. -/
def hit_sets (p : SubsetCoverParameters) : List (List ℕ) :=
  make_hit_sets (List.range p.num_elements) p.hit_set_size

/-- The value of the 0/1 variable `Member_(s,e)` under a Boolean
assignment. -/
def memVal (p : SubsetCoverParameters)
    (member : Fin (num_choice_sets_allocated p) → Fin p.num_elements → Bool)
    (s : Fin (num_choice_sets_allocated p)) (e : ℕ) : ℕ :=
  if h : e < p.num_elements then (member s ⟨e, h⟩).toNat else 0

/-- `min_subset_cover_ilp.py` lines 130-145: for each choice set `C`,
`sum(Member_{C, elt}) == K * Chosen{C}`, the switch-gated size
constraint. -/
def gateConstraints (p : SubsetCoverParameters)
    (member : Fin (num_choice_sets_allocated p) → Fin p.num_elements → Bool)
    (chosen : Fin (num_choice_sets_allocated p) → Bool) : Prop :=
  ∀ s, (∑ e, (member s e).toNat) = p.choice_set_size * (chosen s).toNat

instance (p : SubsetCoverParameters) (member) (chosen) :
    Decidable (gateConstraints p member chosen) := by
  unfold gateConstraints; infer_instance

/-- `min_subset_cover_ilp.py` lines 147-151: each hit set must be hit by at
least one choice set. -/
def coverageConstraints (p : SubsetCoverParameters)
    (isHit : Fin (hit_sets p).length → Fin (num_choice_sets_allocated p) → Bool) :
    Prop :=
  ∀ i, 1 ≤ ∑ s, (isHit i s).toNat

/-- `min_subset_cover_ilp.py` lines 153-168: the same linking inequality as
the feasibility ILP. -/
def linkConstraints (p : SubsetCoverParameters)
    (member : Fin (num_choice_sets_allocated p) → Fin p.num_elements → Bool)
    (isHit : Fin (hit_sets p).length → Fin (num_choice_sets_allocated p) → Bool) :
    Prop :=
  ∀ i s, linkingInequality p.hit_set_size
    (((hit_sets p).get i).map (memVal p member s)) ((isHit i s).toNat)

/-- The complete constraint model `MinSubsetCoverILP.solve` posts. -/
def modelSat (p : SubsetCoverParameters)
    (member : Fin (num_choice_sets_allocated p) → Fin p.num_elements → Bool)
    (isHit : Fin (hit_sets p).length → Fin (num_choice_sets_allocated p) → Bool)
    (chosen : Fin (num_choice_sets_allocated p) → Bool) : Prop :=
  gateConstraints p member chosen ∧ coverageConstraints p isHit ∧
    linkConstraints p member isHit

/-- `min_subset_cover_ilp.py` line 171:
`solver.Minimize(sum(is_chosens.values()))`. -/
def objective (p : SubsetCoverParameters)
    (chosen : Fin (num_choice_sets_allocated p) → Bool) : ℕ :=
  ∑ s, (chosen s).toNat

/-- `min_subset_cover_ilp.py` lines 172-173:
`solver.SetTimeLimit(time_limit_seconds * 1000)` with
`time_limit_seconds = 60 * 5` (milliseconds argument). -/
def time_limit_config_ms : Option ℕ := some ((60 * 5) * 1000)

/-- `min_subset_cover_ilp.py` lines 180-201: the status-classification
branches of `MinSubsetCoverILP.solve` (same as the feasibility ILP). -/
def classify : MPSolverStatus → SolveStatus
  | .OPTIMAL => .SOLVED
  | .FEASIBLE => .SOLVED
  | .INFEASIBLE => .INFEASIBLE
  | _ => .UNKNOWN

end MinSubsetCoverILP

/-- The same parameters with one more allowed choice set. -/
def addChoiceSet (p : SubsetCoverParameters) : SubsetCoverParameters :=
  { p with num_choice_sets := p.num_choice_sets + 1 }

/-- C1 counterexample: the claim asserts the linking inequality is exactly
equivalent to the implication "if every element of the hit set is a member
of the slot, then IsHit = 1".  With a hit set of size `t = 1` whose single
membership variable is 1 while `IsHit = 0` (all variables 0/1-bounded), the
inequality `1 ≥ 1·0` is satisfied but the implication is violated, so the
two are not equivalent. -/
theorem C1_counterexample :
    linkingInequality 1 [1] 0 ∧ ¬ forwardImplicationProp [1] 0 := by
  decide

/-- C1 (amended): for a hit set of size `t`, with every membership value and
the hit-indicator value 0/1-bounded, the single linking inequality
`sum(Member(s, e) for e in H) ≥ t · IsHit(H, s)` is exactly equivalent to
the converse implication actually encoded by the code: "if IsHit(H, s) = 1
then every element of H is a member of slot s". -/
theorem C1_linking_inequality_equivalence (t : ℕ) (memberVals : List ℕ)
    (isHitVal : ℕ) (hlen : memberVals.length = t)
    (hb : ∀ v ∈ memberVals, v ≤ 1) (hib : isHitVal ≤ 1) :
    linkingInequality t memberVals isHitVal ↔
      isHitForcesMembersProp memberVals isHitVal := by
  unfold linkingInequality isHitForcesMembersProp
  constructor
  · intro hineq h1
    rw [h1, Nat.mul_one] at hineq
    exact CommonModel.all_one_of_sum_ge_length hb (by omega)
  · intro himp
    have h01 : isHitVal = 0 ∨ isHitVal = 1 := by omega
    rcases h01 with h | h
    · rw [h, Nat.mul_zero]
      exact Nat.zero_le _
    · have hall := himp h
      have hsum : memberVals.sum = memberVals.length * 1 :=
        List.sum_eq_card_nsmul memberVals 1 hall
      rw [h, Nat.mul_one, hsum, hlen]
      omega

theorem C1_witness :
    linkingInequality 2 [1, 1] 1 ↔ isHitForcesMembersProp [1, 1] 1 :=
  C1_linking_inequality_equivalence 2 [1, 1] 1 (by decide) (by decide)
    (by decide)

/-- C2 counterexample: the claim asserts every backend status indicating a
found assignment (e.g. both FEASIBLE and OPTIMAL) maps to SOLVED, but the
CP classifier maps CP-SAT's `FEASIBLE` (a satisfying assignment was found,
search interrupted) to `UNKNOWN`, not `SOLVED`. -/
theorem C2_counterexample :
    SubsetCoverCP.classify CpSolverStatus.FEASIBLE = SolveStatus.UNKNOWN ∧
    SubsetCoverCP.classify CpSolverStatus.FEASIBLE ≠ SolveStatus.SOLVED := by
  decide

/-- C2 (amended): every classifier is a total function into the three-valued
`SolveStatus`; the ILP/min-ILP classifiers map both `OPTIMAL` and `FEASIBLE`
to `SOLVED`, the CP classifier maps only `OPTIMAL` to `SOLVED` (CP-SAT
`FEASIBLE` goes to `UNKNOWN`), the z3 classifiers map `sat` to `SOLVED`;
in every classifier exactly the backend's proof-of-no-assignment status
(`INFEASIBLE` / `unsat`) maps to `INFEASIBLE`, so no inconclusive status is
ever classified `INFEASIBLE`. -/
theorem C2_classifier_mapping :
    (SubsetCoverILP.classify MPSolverStatus.OPTIMAL = SolveStatus.SOLVED ∧
      SubsetCoverILP.classify MPSolverStatus.FEASIBLE = SolveStatus.SOLVED ∧
      ∀ s, SubsetCoverILP.classify s = SolveStatus.INFEASIBLE ↔
        s = MPSolverStatus.INFEASIBLE) ∧
    (MinSubsetCoverILP.classify MPSolverStatus.OPTIMAL = SolveStatus.SOLVED ∧
      MinSubsetCoverILP.classify MPSolverStatus.FEASIBLE = SolveStatus.SOLVED ∧
      ∀ s, MinSubsetCoverILP.classify s = SolveStatus.INFEASIBLE ↔
        s = MPSolverStatus.INFEASIBLE) ∧
    (SubsetCoverCP.classify CpSolverStatus.OPTIMAL = SolveStatus.SOLVED ∧
      SubsetCoverCP.classify CpSolverStatus.FEASIBLE = SolveStatus.UNKNOWN ∧
      ∀ s, SubsetCoverCP.classify s = SolveStatus.INFEASIBLE ↔
        s = CpSolverStatus.INFEASIBLE) ∧
    (SubsetCoverZ3.classify Z3CheckResult.sat = SolveStatus.SOLVED ∧
      ∀ r, SubsetCoverZ3.classify r = SolveStatus.INFEASIBLE ↔
        r = Z3CheckResult.unsat) ∧
    (SubsetCoverZ3BruteForce.classify Z3CheckResult.sat = SolveStatus.SOLVED ∧
      ∀ r, SubsetCoverZ3BruteForce.classify r = SolveStatus.INFEASIBLE ↔
        r = Z3CheckResult.unsat) := by
  refine ⟨⟨rfl, rfl, ?_⟩, ⟨rfl, rfl, ?_⟩, ⟨rfl, rfl, ?_⟩, ⟨rfl, ?_⟩,
    ⟨rfl, ?_⟩⟩ <;> intro s <;> cases s <;> simp [SubsetCoverILP.classify,
      MinSubsetCoverILP.classify, SubsetCoverCP.classify,
      SubsetCoverZ3.classify, SubsetCoverZ3BruteForce.classify]

/-- C3: the code performs no parameter validation at all.  At
`num_elements = 4, hit_set_size = 5, choice_set_size = 2,
num_choice_sets = 1` the invariant `t ≤ k ≤ n` is violated (`t > k` and
`t > n`), the hit-set universe is empty, the model is built anyway with
vacuous coverage constraints, and the ILP solve silently reports the
malformed problem as SOLVED — contradicting the claimed construction-time
rejection. -/
theorem C3_invalid_parameters_silently_solved :
    SubsetCoverILP.solveExact ⟨4, 5, 2, 1⟩ = SolveStatus.SOLVED := by
  decide

/-- C4 counterexample: for the brute-force encoding with
`n = 2, t = 1, k = 1`, `m = 2` choice sets yield SOLVED but `m + 1 = 3`
yields INFEASIBLE, because the encoding also posts an at-least cardinality
constraint and only `C(2,1) = 2` candidates exist: adding a slot does
destroy feasibility. -/
theorem C4_counterexample :
    SubsetCoverZ3BruteForce.solveExact ⟨2, 1, 1, 2⟩ = SolveStatus.SOLVED ∧
    SubsetCoverZ3BruteForce.solveExact ⟨2, 1, 1, 3⟩ =
      SolveStatus.INFEASIBLE := by
  decide

/-- C4 (amended): for fixed `(n, k, t)`, SOLVED is monotone in the number of
choice sets for the slot-based feasibility encodings (ILP, CP, Z3 integer)
whenever `k ≤ n` (part of the data-model parameter invariant); for the
brute-force encoding it is monotone only under the additional condition
`m + 1 ≤ C(n, k)` forced by its exact-count cardinality constraints. -/
theorem C4_monotonicity (p : SubsetCoverParameters) :
    (p.choice_set_size ≤ p.num_elements →
      (SubsetCoverILP.solveExact p = SolveStatus.SOLVED →
        SubsetCoverILP.solveExact (addChoiceSet p) = SolveStatus.SOLVED) ∧
      (SubsetCoverCP.solveExact p = SolveStatus.SOLVED →
        SubsetCoverCP.solveExact (addChoiceSet p) = SolveStatus.SOLVED) ∧
      (SubsetCoverZ3.solveExact p = SolveStatus.SOLVED →
        SubsetCoverZ3.solveExact (addChoiceSet p) = SolveStatus.SOLVED)) ∧
    (p.num_choice_sets + 1 ≤
        Nat.choose p.num_elements p.choice_set_size →
      SubsetCoverZ3BruteForce.solveExact p = SolveStatus.SOLVED →
      SubsetCoverZ3BruteForce.solveExact (addChoiceSet p) =
        SolveStatus.SOLVED) := by
  constructor
  · intro hk
    refine ⟨?_, ?_, ?_⟩
    · intro h
      rw [SubsetCoverILP.ilp_solveExact_eq_SOLVED_iff] at h ⊢
      rw [SubsetCoverILP.ilp_feasible_iff_slotCover] at h ⊢
      exact AbstractCover.slotCover_mono hk h
    · intro h
      rw [SubsetCoverCP.cp_solveExact_eq_SOLVED_iff] at h ⊢
      rw [SubsetCoverCP.feasible_iff_ilp] at h ⊢
      rw [SubsetCoverILP.ilp_feasible_iff_slotCover] at h ⊢
      exact AbstractCover.slotCover_mono hk h
    · intro h
      rw [SubsetCoverZ3.z3_solveExact_eq_SOLVED_iff] at h ⊢
      rw [SubsetCoverZ3.z3_feasible_iff_slotCover] at h ⊢
      exact AbstractCover.slotCover_mono hk h
  · intro hm h
    rw [SubsetCoverZ3BruteForce.bf_solveExact_eq_SOLVED_iff] at h ⊢
    rw [SubsetCoverZ3BruteForce.feasible_iff_exactCover] at h ⊢
    exact AbstractCover.exactCover_mono hm h

theorem C4_witness :
    SubsetCoverILP.solveExact (addChoiceSet ⟨2, 1, 1, 2⟩) =
      SolveStatus.SOLVED ∧
    SubsetCoverZ3BruteForce.solveExact (addChoiceSet ⟨3, 1, 2, 2⟩) =
      SolveStatus.SOLVED :=
  ⟨((C4_monotonicity ⟨2, 1, 1, 2⟩).1 (by decide)).1 (by decide),
   (C4_monotonicity ⟨3, 1, 2, 2⟩).2 (by decide) (by decide)⟩

/-- C5 counterexample: at `n = 2, t = 1, k = 1, m = 3` (so `n ≤ 8`, and in
the crash-free region `t ≤ k ≤ n` where the brute-force solve really
returns a status), the ILP encoding reports SOLVED (three anonymous slots
may repeat a candidate) while the brute-force solve returns INFEASIBLE (its
at-least constraint needs three distinct candidates but only `C(2,1) = 2`
exist): two encodings disagree on a definitive result. -/
theorem C5_counterexample :
    SubsetCoverILP.solveExact ⟨2, 1, 1, 3⟩ = SolveStatus.SOLVED ∧
    SubsetCoverZ3BruteForce.solve ⟨2, 1, 1, 3⟩ =
      Except.ok SolveStatus.INFEASIBLE := by
  refine ⟨by decide, ?_⟩
  rw [SubsetCoverZ3BruteForce.bf_solve_eq_ok (by decide) (by decide)]
  have h : SubsetCoverZ3BruteForce.solveExact ⟨2, 1, 1, 3⟩ =
      SolveStatus.INFEASIBLE := by decide
  rw [h]

/-- C5 (amended): for `n ≤ 8`, parameters satisfying the data-model
invariant `1 ≤ t ≤ k ≤ n`, and `1 ≤ m ≤ C(n, k)`, the ILP, CP, Z3-integer
and brute-force encodings all return the same definitive status under exact
backends (no construction-time exception is reachable there); the fifth
(Z3 cardinality) encoding never returns a status but raises `NameError`.
Outside this region the encodings genuinely diverge: for `m > C(n, k)` the
brute-force encoding answers INFEASIBLE where slot-based encodings may
answer SOLVED (see the counterexample), the brute-force solve raises
`Z3Exception` when `k < t ≤ n` or `k > n`, and the Z3-integer solve raises
`Z3Exception` when `m = 0` with a nonempty hit-set universe. -/
theorem C5_cross_encoding_agreement (p : SubsetCoverParameters)
    (hn : p.num_elements ≤ 8) (ht : 1 ≤ p.hit_set_size)
    (htk : p.hit_set_size ≤ p.choice_set_size)
    (hkn : p.choice_set_size ≤ p.num_elements)
    (hm1 : 1 ≤ p.num_choice_sets)
    (hm : p.num_choice_sets ≤
      Nat.choose p.num_elements p.choice_set_size) :
    SubsetCoverCP.solveExact p = SubsetCoverILP.solveExact p ∧
    SubsetCoverZ3.solve p = Except.ok (SubsetCoverILP.solveExact p) ∧
    SubsetCoverZ3BruteForce.solve p =
      Except.ok (SubsetCoverILP.solveExact p) ∧
    SubsetCoverZ3Cardinality.solve p =
      Except.error (PyError.nameError "ChoiceSetMembers") := by
  have hiff1 : SubsetCoverCP.feasible p ↔ SubsetCoverILP.feasible p :=
    SubsetCoverCP.feasible_iff_ilp p
  have hiff2 : SubsetCoverZ3.feasible p ↔ SubsetCoverILP.feasible p :=
    (SubsetCoverZ3.z3_feasible_iff_slotCover p).trans
      (SubsetCoverILP.ilp_feasible_iff_slotCover p).symm
  have hiff3 : SubsetCoverZ3BruteForce.feasible p ↔
      SubsetCoverILP.feasible p := by
    rw [SubsetCoverZ3BruteForce.feasible_iff_exactCover,
      SubsetCoverILP.ilp_feasible_iff_slotCover]
    exact ⟨AbstractCover.exactCover_to_slotCover,
      AbstractCover.slotCover_to_exactCover hm⟩
  have hcp : SubsetCoverCP.solveExact p = SubsetCoverILP.solveExact p := by
    by_cases h : SubsetCoverILP.feasible p
    · exact ((SubsetCoverCP.cp_solveExact_eq_SOLVED_iff p).mpr
        (hiff1.mpr h)).trans
        ((SubsetCoverILP.ilp_solveExact_eq_SOLVED_iff p).mpr h).symm
    · exact ((SubsetCoverCP.cp_solveExact_eq_INFEASIBLE_iff p).mpr
        (fun hc => h (hiff1.mp hc))).trans
        ((SubsetCoverILP.ilp_solveExact_eq_INFEASIBLE_iff p).mpr h).symm
  have hz3e : SubsetCoverZ3.solveExact p = SubsetCoverILP.solveExact p := by
    by_cases h : SubsetCoverILP.feasible p
    · exact ((SubsetCoverZ3.z3_solveExact_eq_SOLVED_iff p).mpr
        (hiff2.mpr h)).trans
        ((SubsetCoverILP.ilp_solveExact_eq_SOLVED_iff p).mpr h).symm
    · exact ((SubsetCoverZ3.z3_solveExact_eq_INFEASIBLE_iff p).mpr
        (fun hc => h (hiff2.mp hc))).trans
        ((SubsetCoverILP.ilp_solveExact_eq_INFEASIBLE_iff p).mpr h).symm
  have hbfe : SubsetCoverZ3BruteForce.solveExact p =
      SubsetCoverILP.solveExact p := by
    by_cases h : SubsetCoverILP.feasible p
    · exact ((SubsetCoverZ3BruteForce.bf_solveExact_eq_SOLVED_iff p).mpr
        (hiff3.mpr h)).trans
        ((SubsetCoverILP.ilp_solveExact_eq_SOLVED_iff p).mpr h).symm
    · exact ((SubsetCoverZ3BruteForce.bf_solveExact_eq_INFEASIBLE_iff p).mpr
        (fun hc => h (hiff3.mp hc))).trans
        ((SubsetCoverILP.ilp_solveExact_eq_INFEASIBLE_iff p).mpr h).symm
  have hz3nc : ¬ SubsetCoverZ3.constructionRaises p := by
    unfold SubsetCoverZ3.constructionRaises
    omega
  have hbf1 : ¬ SubsetCoverZ3BruteForce.orRaises p := by
    unfold SubsetCoverZ3BruteForce.orRaises
    omega
  have hbf2 : ¬ SubsetCoverZ3BruteForce.atMostRaises p := by
    unfold SubsetCoverZ3BruteForce.atMostRaises
    omega
  refine ⟨hcp, ?_, ?_, rfl⟩
  · rw [SubsetCoverZ3.z3_solve_eq_ok hz3nc, hz3e]
  · rw [SubsetCoverZ3BruteForce.bf_solve_eq_ok hbf1 hbf2, hbfe]

theorem C5_witness :
    SubsetCoverZ3BruteForce.solve ⟨2, 1, 1, 2⟩ =
      Except.ok (SubsetCoverILP.solveExact ⟨2, 1, 1, 2⟩) :=
  (C5_cross_encoding_agreement ⟨2, 1, 1, 2⟩ (by decide) (by decide)
    (by decide) (by decide) (by decide) (by decide)).2.2.1

/-- C6: the minimization encoding ignores `num_choice_sets` (the whole model
is unchanged if that field is), allocates exactly `C(num_elements,
hit_set_size)` slots, posts for every slot the switch-gated size equality
`sum(Member(slot, e)) == choice_set_size · Chosen(slot)` — so under any
satisfying assignment each slot's membership sum is either 0 or exactly
`choice_set_size` — and its objective is the sum of `Chosen` over all
slots. -/
theorem C6_minimization_model (p : SubsetCoverParameters) :
    (∀ m, MinSubsetCoverILP.num_choice_sets_allocated
        { p with num_choice_sets := m } =
      MinSubsetCoverILP.num_choice_sets_allocated p) ∧
    (∀ m member isHit chosen,
      MinSubsetCoverILP.modelSat { p with num_choice_sets := m }
          member isHit chosen ↔
        MinSubsetCoverILP.modelSat p member isHit chosen) ∧
    MinSubsetCoverILP.num_choice_sets_allocated p =
      Nat.choose p.num_elements p.hit_set_size ∧
    (∀ member chosen, MinSubsetCoverILP.gateConstraints p member chosen →
      ∀ s, (∑ e, (member s e).toNat) = 0 ∨
        (∑ e, (member s e).toNat) = p.choice_set_size) ∧
    (∀ chosen, MinSubsetCoverILP.objective p chosen =
      ∑ s, (chosen s).toNat) := by
  refine ⟨fun m => rfl, fun m member isHit chosen => Iff.rfl, rfl,
    ?_, fun chosen => rfl⟩
  intro member chosen hg s
  have h := hg s
  cases hc : chosen s
  · rw [hc] at h
    simp only [Bool.toNat_false, Nat.mul_zero] at h
    exact Or.inl h
  · rw [hc] at h
    simp only [Bool.toNat_true, Nat.mul_one] at h
    exact Or.inr h

theorem C6_witness :
    (∑ e : Fin 1, (true : Bool).toNat) = 0 ∨
      (∑ e : Fin 1, (true : Bool).toNat) = 1 :=
  (C6_minimization_model ⟨1, 1, 1, 0⟩).2.2.2.1 (fun _ _ => true)
    (fun _ => true) (by decide) ⟨0, by decide⟩

/-- C7: for `1 ≤ t ≤ n`, the hit-set generator applied to `[0, n)` returns
exactly `C(n, t)` hit sets, pairwise distinct, each a sorted tuple of `t`
distinct elements below `n`, listed in lexicographic order; every element of
the universe occurs in at least one hit set; and the generator is a pure
function, so repeated calls with identical parameters return the identical
list. -/
theorem C7_hit_set_generator (n t : ℕ) (h1 : 1 ≤ t) (h2 : t ≤ n) :
    (CommonModel.make_hit_sets (List.range n) t).length = Nat.choose n t ∧
    (CommonModel.make_hit_sets (List.range n) t).Nodup ∧
    (∀ h ∈ CommonModel.make_hit_sets (List.range n) t,
      h.Sorted (· < ·) ∧ h.Nodup ∧ h.length = t ∧ ∀ e ∈ h, e < n) ∧
    (CommonModel.make_hit_sets (List.range n) t).Pairwise
      (List.Lex (· < ·)) ∧
    (∀ x, x < n →
      ∃ h ∈ CommonModel.make_hit_sets (List.range n) t, x ∈ h) ∧
    CommonModel.make_hit_sets (List.range n) t =
      CommonModel.make_hit_sets (List.range n) t := by
  rw [CommonModel.make_hit_sets_range]
  refine ⟨?_, ?_, ?_, ?_, ?_, rfl⟩
  · rw [CommonModel.length_combinations, List.length_range]
  · exact CommonModel.nodup_combinations (CommonModel.sorted_lt_range n)
  · intro h hh
    obtain ⟨hs, hl, hb⟩ := CommonModel.mem_combinations_range.mp hh
    exact ⟨hs, hs.nodup, hl, hb⟩
  · exact CommonModel.pairwise_lex_combinations t (List.range n)
      (CommonModel.sorted_lt_range n)
  · intro x hx
    exact CommonModel.exists_combination_containing h1 h2 hx

theorem C7_witness :
    (CommonModel.make_hit_sets (List.range 3) 2).length = Nat.choose 3 2 :=
  (C7_hit_set_generator 3 2 (by decide) (by decide)).1

/-- C8: with `num_choice_sets = 0` and a nonempty hit-set universe
(`1 ≤ t ≤ n`), the ILP and CP encodings return INFEASIBLE under exact
backends (their models are unsatisfiable: some hit set exists and no slot
can cover it — the empty coverage sums become pywraplp's / cp_model's
trivially-false `Add(False)` constraints); the brute-force encoding returns
INFEASIBLE exactly when its model construction survives (`t ≤ k ≤ n`) and
otherwise raises `Z3Exception` from an empty `Or`; the Z3-integer encoding
never returns INFEASIBLE here — with zero slots its backward implication is
an empty `Or()` and `solve` raises `Z3Exception` — and the Z3-cardinality
encoding raises `NameError` on every input: the code bugs recorded for this
claim. -/
theorem C8_zero_choice_sets_infeasible (p : SubsetCoverParameters)
    (hm : p.num_choice_sets = 0) (h1 : 1 ≤ p.hit_set_size)
    (h2 : p.hit_set_size ≤ p.num_elements) :
    SubsetCoverILP.solveExact p = SolveStatus.INFEASIBLE ∧
    SubsetCoverCP.solveExact p = SolveStatus.INFEASIBLE ∧
    SubsetCoverZ3.solve p = Except.error (PyError.z3Exception
      "At least one of the arguments must be a Z3 expression or probe") ∧
    (p.hit_set_size ≤ p.choice_set_size →
      p.choice_set_size ≤ p.num_elements →
      SubsetCoverZ3BruteForce.solve p =
        Except.ok SolveStatus.INFEASIBLE) ∧
    (p.choice_set_size < p.hit_set_size ∨
        p.num_elements < p.choice_set_size →
      SubsetCoverZ3BruteForce.solve p = Except.error (PyError.z3Exception
        "At least one of the arguments must be a Z3 expression or probe")) ∧
    SubsetCoverZ3Cardinality.solve p =
      Except.error (PyError.nameError "ChoiceSetMembers") := by
  have hne : CommonModel.make_hit_sets (List.range p.num_elements)
      p.hit_set_size ≠ [] := by
    intro hcon
    have hlen : (CommonModel.make_hit_sets (List.range p.num_elements)
        p.hit_set_size).length = Nat.choose p.num_elements p.hit_set_size := by
      rw [CommonModel.make_hit_sets_range, CommonModel.length_combinations,
        List.length_range]
    rw [hcon] at hlen
    have hpos := Nat.choose_pos h2
    simp at hlen
    omega
  obtain ⟨h0, hh0⟩ := List.exists_mem_of_ne_nil _ hne
  have hnslot : ¬ AbstractCover.SlotCover p.num_elements p.choice_set_size
      p.hit_set_size p.num_choice_sets := by
    rintro ⟨f, _, hcov⟩
    obtain ⟨s, _⟩ := hcov h0 hh0
    rw [hm] at s
    exact s.elim0
  have hnexact : ¬ AbstractCover.ExactCover p.num_elements p.choice_set_size
      p.hit_set_size p.num_choice_sets :=
    fun hc => hnslot (AbstractCover.exactCover_to_slotCover hc)
  refine ⟨(SubsetCoverILP.ilp_solveExact_eq_INFEASIBLE_iff p).mpr ?_,
    (SubsetCoverCP.cp_solveExact_eq_INFEASIBLE_iff p).mpr ?_,
    SubsetCoverZ3.z3_solve_eq_error (Or.inl ⟨hm, h2⟩), ?_, ?_, rfl⟩
  · exact fun hc => hnslot ((SubsetCoverILP.ilp_feasible_iff_slotCover p).mp hc)
  · exact fun hc => hnslot ((SubsetCoverILP.ilp_feasible_iff_slotCover p).mp
      ((SubsetCoverCP.feasible_iff_ilp p).mp hc))
  · intro htk hkn
    have hno : ¬ SubsetCoverZ3BruteForce.orRaises p := by
      unfold SubsetCoverZ3BruteForce.orRaises
      omega
    have hna : ¬ SubsetCoverZ3BruteForce.atMostRaises p := by
      unfold SubsetCoverZ3BruteForce.atMostRaises
      omega
    rw [SubsetCoverZ3BruteForce.bf_solve_eq_ok hno hna,
      (SubsetCoverZ3BruteForce.bf_solveExact_eq_INFEASIBLE_iff p).mpr
        (fun hc => hnexact
          ((SubsetCoverZ3BruteForce.feasible_iff_exactCover p).mp hc))]
  · intro hcase
    exact SubsetCoverZ3BruteForce.bf_solve_eq_error_or ⟨h2, hcase⟩

theorem C8_witness :
    SubsetCoverILP.solveExact ⟨2, 1, 1, 0⟩ = SolveStatus.INFEASIBLE ∧
    SubsetCoverZ3BruteForce.solve ⟨2, 1, 1, 0⟩ =
      Except.ok SolveStatus.INFEASIBLE :=
  ⟨(C8_zero_choice_sets_infeasible ⟨2, 1, 1, 0⟩ rfl (by decide)
      (by decide)).1,
   (C8_zero_choice_sets_infeasible ⟨2, 1, 1, 0⟩ rfl (by decide)
      (by decide)).2.2.2.1 (by decide) (by decide)⟩

/-- C9 counterexample: the claim asserts every encoding configures a
5-to-15-minute solve budget, but the feasibility ILP configures no budget
at all (its `SetTimeLimit` block is commented out) and the Z3 integer
encoding passes `60*5 = 300` to z3's millisecond-valued `timeout`
parameter — 0.3 seconds, far below five minutes. -/
theorem C9_counterexample :
    SubsetCoverILP.time_limit_config_ms = none ∧
    SubsetCoverZ3.timeout_config_ms = 300 ∧
    ¬ (5 * 60 * 1000 ≤ SubsetCoverZ3.timeout_config_ms) := by
  decide

/-- C9 (amended): the CP encoding budgets 900 seconds and the brute-force
encoding 900000 milliseconds (both 15 minutes), the minimization ILP budgets
300000 milliseconds (5 minutes); the feasibility ILP configures no budget,
and the Z3 integer and cardinality encodings configure 300 milliseconds
(`60*5` where z3 expects milliseconds); in every encoding an inconclusive
or timeout backend status is classified as the UNKNOWN outcome rather than
an error. -/
theorem C9_time_budgets :
    SubsetCoverCP.time_limit_seconds = 15 * 60 ∧
    SubsetCoverZ3BruteForce.timeout_config_ms = 15 * 60 * 1000 ∧
    MinSubsetCoverILP.time_limit_config_ms = some (5 * 60 * 1000) ∧
    SubsetCoverILP.time_limit_config_ms = none ∧
    SubsetCoverZ3.timeout_config_ms = 300 ∧
    SubsetCoverZ3Cardinality.timeout_config_ms = 300 ∧
    SubsetCoverILP.classify MPSolverStatus.NOT_SOLVED =
      SolveStatus.UNKNOWN ∧
    SubsetCoverCP.classify CpSolverStatus.UNKNOWN = SolveStatus.UNKNOWN ∧
    SubsetCoverZ3.classify Z3CheckResult.unknown = SolveStatus.UNKNOWN ∧
    SubsetCoverZ3BruteForce.classify Z3CheckResult.unknown =
      SolveStatus.UNKNOWN := by
  decide

/-- C10: the brute-force encoding posts the selection-count cardinality
constraint in both directions, so every satisfying assignment selects
exactly `num_choice_sets` candidates; consequently, whenever
`num_choice_sets` exceeds the number `C(num_elements, choice_set_size)` of
candidates, the posted model is unsatisfiable regardless of coverage: the
solve never reports SOLVED there — it reports INFEASIBLE whenever model
construction survives, and otherwise (an empty `Or`/`AtMost` argument list,
i.e. `k < t ≤ n` or `k > n`) raises `Z3Exception` before any check. -/
theorem C10_brute_force_exact_selection (p : SubsetCoverParameters) :
    (∀ choice hit, SubsetCoverZ3BruteForce.modelSat p choice hit →
      (∑ j, (choice j).toNat) = p.num_choice_sets) ∧
    (Nat.choose p.num_elements p.choice_set_size < p.num_choice_sets →
      ¬ SubsetCoverZ3BruteForce.feasible p) ∧
    (Nat.choose p.num_elements p.choice_set_size < p.num_choice_sets →
      SubsetCoverZ3BruteForce.solve p ≠ Except.ok SolveStatus.SOLVED) ∧
    (Nat.choose p.num_elements p.choice_set_size < p.num_choice_sets →
      ¬ SubsetCoverZ3BruteForce.orRaises p →
      ¬ SubsetCoverZ3BruteForce.atMostRaises p →
      SubsetCoverZ3BruteForce.solve p =
        Except.ok SolveStatus.INFEASIBLE) := by
  have hinfeas : Nat.choose p.num_elements p.choice_set_size <
      p.num_choice_sets → ¬ SubsetCoverZ3BruteForce.feasible p := by
    intro hlt
    rintro ⟨choice, hit, _, _, _, _, hatl⟩
    unfold SubsetCoverZ3BruteForce.atLeastConstraint at hatl
    have hle : (∑ j, (choice j).toNat) ≤
        (SubsetCoverZ3BruteForce.choice_sets p).length := by
      calc (∑ j, (choice j).toNat)
          ≤ ∑ _j : Fin (SubsetCoverZ3BruteForce.choice_sets p).length, 1 :=
            Finset.sum_le_sum (fun j _ => Bool.toNat_le _)
        _ = (SubsetCoverZ3BruteForce.choice_sets p).length := by simp
    have hlen := SubsetCoverZ3BruteForce.length_choice_sets p
    omega
  refine ⟨?_, hinfeas, ?_, ?_⟩
  · rintro choice hit ⟨_, _, _, hatm, hatl⟩
    unfold SubsetCoverZ3BruteForce.atMostConstraint at hatm
    unfold SubsetCoverZ3BruteForce.atLeastConstraint at hatl
    omega
  · intro hlt
    by_cases h1 : SubsetCoverZ3BruteForce.orRaises p
    · rw [SubsetCoverZ3BruteForce.bf_solve_eq_error_or h1]
      intro hcon
      exact Except.noConfusion hcon
    · by_cases h2 : SubsetCoverZ3BruteForce.atMostRaises p
      · unfold SubsetCoverZ3BruteForce.solve
        rw [if_neg h1, if_pos h2]
        intro hcon
        exact Except.noConfusion hcon
      · rw [SubsetCoverZ3BruteForce.bf_solve_eq_ok h1 h2]
        intro hcon
        exact hinfeas hlt
          ((SubsetCoverZ3BruteForce.bf_solveExact_eq_SOLVED_iff p).mp
            (Except.ok.inj hcon))
  · intro hlt h1 h2
    rw [SubsetCoverZ3BruteForce.bf_solve_eq_ok h1 h2,
      (SubsetCoverZ3BruteForce.bf_solveExact_eq_INFEASIBLE_iff p).mpr
        (hinfeas hlt)]

theorem C10_witness :
    SubsetCoverZ3BruteForce.solve ⟨3, 1, 1, 4⟩ =
      Except.ok SolveStatus.INFEASIBLE :=
  (C10_brute_force_exact_selection ⟨3, 1, 1, 4⟩).2.2.2 (by decide)
    (by decide) (by decide)

end SubsetCoverSpec
